import Mathlib

/-!
# png_reader: a shallow embedding of `src/png_reader.c`

The program reads a PNG file, checks the 8-byte file header, then walks the
chunks: for every chunk it prints a summary line and checks the CRC-32, it
decodes `IHDR`, checks the zlib header and a stored DEFLATE block of `IDAT`,
and stops at `IEND` or at a premature end of file.

Modelling conventions.

* The file is a list of bytes; `fread` consumes a prefix of it.
* Every `printf` of the chunk loop is an `Event`; the run yields the list of
  events in output order and an `Outcome`.
* `uint32_t`/`uint16_t`/`int` values are `Nat`/`Int` with explicit wrapping
  (`u32`, `u16`, `int32`); `int` arithmetic wraps in two's complement, `>>` on
  `int` is the arithmetic shift.
* The host is little-endian (the tool was built for Mac OS X on x86), so the
  native value of bytes in memory is `le_value`.
* Memory that is read before it was written (the `malloc`ed buffer after a
  short `fread`, the `ihdr` variable before the first `IHDR` chunk) has an
  arbitrary content supplied by `Env`.
* The program has no length test before it indexes the chunk buffer, and no
  exit there: a read past the end of the buffer yields the content of the
  memory that follows it, supplied by `Env` like the content of the buffer
  itself, and the program goes on. `ihdr_branch` and `idat_branch` describe
  the branches as long as the accesses stay inside the objects and tell
  whether they did; `process_chunk` continues them on the memory that follows.
* A `memcpy` into `ihdr` that is longer than `ihdr` fills the object; where the
  other bytes land is a matter of memory layout and is not modelled.
* `malloc` is assumed to succeed; command-line handling and `fopen` are not
  modelled.
-/

namespace PngReader

/-- An `unsigned char`. -/
abbrev Byte := Fin 256

/-- Conversion to `uint32_t`. -/
def u32 (n : Nat) : Nat := n % 2 ^ 32

/-- Conversion to `uint16_t`. -/
def u16 (n : Nat) : Nat := n % 2 ^ 16

/-- Conversion to `int` (32 bits, two's complement). -/
def int32 (x : Int) : Int := (x + 2 ^ 31) % 2 ^ 32 - 2 ^ 31

/-- Native value of an object whose bytes in memory are `bs` (little-endian host). -/
def le_value : List Byte → Nat
  | [] => 0
  | b :: bs => b.val + 256 * le_value bs

/-- The four bytes in memory of a `uint32_t` (little-endian host). -/
def le_bytes32 (n : Nat) : List Byte :=
  [Fin.ofNat n, Fin.ofNat (n / 2 ^ 8), Fin.ofNat (n / 2 ^ 16), Fin.ofNat (n / 2 ^ 24)]

/-- Modelled from the spec: `swap_uint32` is defined in png_utils.h, which is not
part of the sources; the spec describes it as the conversion of a 4-byte
big-endian quantity to native byte order, that is, on the little-endian host,
the reversal of the four bytes of a 32-bit value. -/
def swap_uint32 (x : Nat) : Nat :=
  (x % 2 ^ 8) * 2 ^ 24 + (x / 2 ^ 8 % 2 ^ 8) * 2 ^ 16 + (x / 2 ^ 16 % 2 ^ 8) * 2 ^ 8
    + x / 2 ^ 24 % 2 ^ 8

/-- Modelled from the spec: `ihdr_t` is declared in png_utils.h, which is not part
of the sources; the spec's ImageHeader has these seven fields, in this order,
the two 32-bit fields first and the five one-byte fields after them, 13 bytes
in all without padding (`decode_ihdr(payload: 13 bytes)`). -/
structure ihdr_t where
  width : Nat
  height : Nat
  bit_depth : Byte
  color_type : Byte
  comp_method : Byte
  filter_method : Byte
  interlace_method : Byte
deriving DecidableEq, Repr

/-- The 13 bytes of an `ihdr_t` in memory. -/
def ihdr_t.bytes (h : ihdr_t) : List Byte :=
  le_bytes32 h.width ++ le_bytes32 h.height ++
    [h.bit_depth, h.color_type, h.comp_method, h.filter_method, h.interlace_method]

/-- The `ihdr_t` whose bytes in memory are `m`. -/
def ihdr_t.of_bytes (m : List Byte) : ihdr_t where
  width := le_value (m.take 4)
  height := le_value ((m.drop 4).take 4)
  bit_depth := m.getD 8 0
  color_type := m.getD 9 0
  comp_method := m.getD 10 0
  filter_method := m.getD 11 0
  interlace_method := m.getD 12 0

/-- The size of `ihdr_t`. -/
def sizeof_ihdr : Nat := 13

/-- What the program takes from its environment: the checksum functions of
png_utils.h (not part of the sources, taken as parameters), the content of
freshly allocated heap memory, and the initial content of the `ihdr` variable. -/
structure Env where
  crc32 : List Byte → Nat
  adler32 : List Byte → Nat
  heap : Nat → Byte
  stack_ihdr : ihdr_t

/-- One `printf` of the program (consecutive detail lines are grouped). -/
inductive Event where
  /-- Line 52: `Header Byte %d Mismatch; Expected=%d, but Found=%d`. -/
  | header_mismatch (position expected found : Nat)
  /-- Line 63: `Premature end of file encountered`. -/
  | premature_eof
  /-- Line 83: the summary line of a chunk. -/
  | chunk_summary (chunk_type : List Byte) (ancillary private_bit reserved safe_to_copy : Nat)
      (length crc_file crc_computed : Nat)
  /-- Line 86: `CRC MISMATCH`. -/
  | crc_mismatch
  /-- Lines 94-101: the seven fields of IHDR. -/
  | ihdr_fields (width height bit_depth color_type comp_method filter_method
      interlace_method : Nat)
  /-- Lines 108-122: CMF, compression method and info, FLG, FCHECK. -/
  | zlib_header (cmf cm ci flg fcheck : Nat)
  /-- Line 126: `FCHECK checksum mismatch`. -/
  | fcheck_mismatch
  /-- Lines 129-138: FDICT, FLEVEL, the block byte, its 3 low bits, BFINAL, BTYPE. -/
  | block_header (fdict flevel block_format low3 bfinal btype : Nat)
  /-- Lines 144-145: LEN and NLEN. -/
  | len_nlen (len nlen : Nat)
  /-- Line 150: `One's complement of LEN is not equal to NLEN`. -/
  | nlen_mismatch (ones_complement nlen : Nat)
  /-- Line 187: `Mismatch with uncompressed data length and expected length`. -/
  | stored_length_mismatch (len : Nat) (expected_len : Int)
  /-- Line 198: the stored and the computed Adler-32. -/
  | adler_values (adler32_file adler32_computed : Nat)
  /-- Line 201: `ADLER-32 MISMATCH`. -/
  | adler_mismatch
deriving DecidableEq, Repr

/-- How a run (or an iteration) ends. -/
inductive Outcome where
  /-- The loop was left after an `IEND` chunk; `main` falls off its end. -/
  | done
  /-- `return 1` at line 64. -/
  | aborted
  /-- The model's iteration bound was reached (never the case for `main`). -/
  | out_of_fuel
deriving DecidableEq, Repr

/-- The type tags the program compares with. -/
def str_IHDR : List Byte := [73, 72, 68, 82]

/-- The tag "IDAT". -/
def str_IDAT : List Byte := [73, 68, 65, 84]

/-- The tag "IEND". -/
def str_IEND : List Byte := [73, 69, 78, 68]

/-- Lines 78-81: `(b & 32) >> 5`. -/
def property_bit (b : Byte) : Nat := (b.val &&& 32) >>> 5

/-- Line 90: `memcpy(&ihdr, src, n)` for `n` at most the size of `ihdr`. -/
def memcpy_ihdr (ihdr : ihdr_t) (src : List Byte) (n : Nat) : ihdr_t :=
  ihdr_t.of_bytes (src.take n ++ ihdr.bytes.drop n)

/-- Lines 90-101, the IHDR branch: the events and the new `ihdr`, or no `ihdr`
when the copy leaves the `ihdr` object. -/
def ihdr_branch (ihdr : ihdr_t) (buffer : List Byte) (length : Nat) :
    List Event × Option ihdr_t :=
  if length ≤ sizeof_ihdr ∧ 4 + length ≤ buffer.length then
    let copied := memcpy_ihdr ihdr (buffer.drop 4) length
    let h : ihdr_t :=
      { copied with width := swap_uint32 copied.width, height := swap_uint32 copied.height }
    ([Event.ihdr_fields h.width h.height h.bit_depth.val h.color_type.val h.comp_method.val
        h.filter_method.val h.interlace_method.val], some h)
  else ([], none)

/-- Lines 153-159: the value of `expected_len` after the switch on the color
type, the samples of one row. -/
def expected_samples (ihdr : ihdr_t) : Int :=
  let e0 : Int := int32 ihdr.width
  if ihdr.color_type.val = 2 then int32 (e0 * 3)
  else if ihdr.color_type.val = 4 then int32 (e0 * 2)
  else if ihdr.color_type.val = 6 then int32 (e0 * 4)
  else e0

/-- Lines 161-183: the value of `expected_len` before the multiplication by the
height, the bytes of one row with its filter byte. -/
def expected_row_len (ihdr : ihdr_t) : Int :=
  let e1 : Int := expected_samples ihdr
  let need_filler (m : Int) : Int := if Int.tmod e1 m ≠ 0 then 1 else 0
  let p : Int × Int :=
    if ihdr.bit_depth.val = 1 then (e1 >>> (3 : Nat), need_filler 8)
    else if ihdr.bit_depth.val = 2 then (e1 >>> (2 : Nat), need_filler 4)
    else if ihdr.bit_depth.val = 4 then (e1 >>> (1 : Nat), need_filler 2)
    else if ihdr.bit_depth.val = 16 then (int32 (e1 * 2), 0)
    else (e1, 0)
  let e3 : Int := int32 (p.1 + p.2)
  int32 (e3 + 1)

/-- Lines 153-184: the expected length of the stored block; the product with the
`uint32_t` height is computed in `uint32_t` and converted back to `int`. -/
def expected_len (ihdr : ihdr_t) : Int :=
  int32 ((expected_row_len ihdr % 2 ^ 32) * (u32 ihdr.height : Int))

/-- Lines 141-202, the stored block (BTYPE = 0): the events, and whether all
accesses stayed inside `buffer`. -/
def stored_block (env : Env) (ihdr : ihdr_t) (buffer : List Byte) (length : Nat) :
    List Event × Bool :=
  match buffer[7]?, buffer[8]?, buffer[9]?, buffer[10]? with
  | some b7, some b8, some b9, some b10 =>
    let len : Nat := u16 (b7.val + b8.val * 256)
    let nlen : Nat := u16 (b9.val + b10.val * 256)
    let ones_complement : Nat := ((-(len : Int) - 1) % 2 ^ 16).toNat
    let ev1 : List Event := [Event.len_nlen len nlen] ++
      (if ones_complement ≠ nlen then [Event.nlen_mismatch ones_complement nlen] else [])
    let ev2 : List Event :=
      if (len : Int) ≠ expected_len ihdr then
        [Event.stored_length_mismatch len (expected_len ihdr)]
      else []
    if length + 4 ≤ buffer.length ∧ 11 + len ≤ buffer.length then
      let adler32_file : Nat := swap_uint32 (le_value ((buffer.drop length).take 4))
      let adler32_computed : Nat := u32 (env.adler32 ((buffer.drop 11).take len))
      (ev1 ++ ev2 ++ [Event.adler_values adler32_file adler32_computed] ++
        (if adler32_file ≠ adler32_computed then [Event.adler_mismatch] else []), true)
    else (ev1 ++ ev2, false)
  | _, _, _, _ => ([], false)

/-- Lines 104-204, the IDAT branch: the events, and whether all accesses stayed
inside `buffer`. -/
def idat_branch (env : Env) (ihdr : ihdr_t) (buffer : List Byte) (length : Nat) :
    List Event × Bool :=
  match buffer[4]?, buffer[5]?, buffer[6]? with
  | some cmf, some flg, some block_format =>
    let cm : Nat := cmf.val &&& 15
    let ci : Nat := (cmf.val &&& 240) >>> 4
    let fcheck : Nat := flg.val &&& 31
    let fdict : Nat := (flg.val &&& 32) >>> 5
    let flevel : Nat := (flg.val &&& 129) >>> 6
    let fcheck_calc : Nat := (cmf.val * 256 + flg.val) % 31
    let bfinal : Nat := block_format.val &&& 1
    let btype : Nat := (block_format.val &&& 6) >>> 1
    let ev : List Event := [Event.zlib_header cmf.val cm ci flg.val fcheck] ++
      (if fcheck_calc ≠ 0 then [Event.fcheck_mismatch] else []) ++
      [Event.block_header fdict flevel block_format.val (block_format.val &&& 7) bfinal btype]
    if btype = 0 then
      let r := stored_block env ihdr buffer length
      (ev ++ r.1, r.2)
    else (ev, true)
  | _, _, _ => ([], false)

/-- The result of one iteration of the `do ... while` loop. -/
inductive Step where
  /-- The program ends. -/
  | halt (events : List Event) (outcome : Outcome)
  /-- The loop goes on with this `ihdr` and this rest of the file. -/
  | next (events : List Event) (ihdr : ihdr_t) (file : List Byte)
deriving DecidableEq, Repr

/-- The first `n` bytes of memory from the start of `buffer`: the buffer itself
and, past its end, the content of the heap. -/
def beyond (env : Env) (buffer : List Byte) (n : Nat) : List Byte :=
  buffer ++ (List.range (n - buffer.length)).map (fun i => env.heap (buffer.length + i))

/-- Lines 90-101 when the copy leaves `ihdr` or `buffer`: the bytes of `ihdr` are
filled from the buffer and the memory that follows it, then the fields are
swapped and printed as in `ihdr_branch`. -/
def ihdr_branch_beyond (env : Env) (ihdr : ihdr_t) (buffer : List Byte) (length : Nat) :
    List Event × ihdr_t :=
  let copied := memcpy_ihdr ihdr ((beyond env buffer (4 + sizeof_ihdr)).drop 4)
    (min length sizeof_ihdr)
  let h : ihdr_t :=
    { copied with width := swap_uint32 copied.width, height := swap_uint32 copied.height }
  ([Event.ihdr_fields h.width h.height h.bit_depth.val h.color_type.val h.comp_method.val
      h.filter_method.val h.interlace_method.val], h)

/-- The number of bytes from the start of the buffer that the IDAT branch can
reach: the trailer at offset `length`, and 65535 data bytes from offset 11. -/
def idat_reach (length : Nat) : Nat := max (length + 4) (11 + 65535)

/-- Lines 71-210: the rest of an iteration once `buffer` and `crc_file` are
read; `file3` is the unread rest of the file. The four bytes of the type tag
are the first four bytes of memory at `buffer`. Where a branch leaves the
buffer, it runs on the buffer and the memory that follows it. -/
def process_chunk (env : Env) (ihdr : ihdr_t) (buffer : List Byte) (length crc_file : Nat)
    (file3 : List Byte) : Step :=
  let t0 : Byte := buffer.getD 0 (env.heap 0)
  let t1 : Byte := buffer.getD 1 (env.heap 1)
  let t2 : Byte := buffer.getD 2 (env.heap 2)
  let t3 : Byte := buffer.getD 3 (env.heap 3)
  let chunk_type : List Byte := [t0, t1, t2, t3]
  let crc_computed : Nat := u32 (env.crc32 buffer)
  let ev : List Event :=
    [Event.chunk_summary chunk_type (property_bit t0) (property_bit t1) (property_bit t2)
      (property_bit t3) length crc_file crc_computed] ++
    (if crc_file ≠ crc_computed then [Event.crc_mismatch] else [])
  if chunk_type = str_IHDR then
    match ihdr_branch ihdr buffer length with
    | (ev1, some h) => Step.next (ev ++ ev1) h file3
    | (_, none) =>
      Step.next (ev ++ (ihdr_branch_beyond env ihdr buffer length).1)
        (ihdr_branch_beyond env ihdr buffer length).2 file3
  else if chunk_type = str_IDAT then
    match idat_branch env ihdr buffer length with
    | (ev1, true) => Step.next (ev ++ ev1) ihdr file3
    | (_, false) =>
      Step.next
        (ev ++ (idat_branch env ihdr (beyond env buffer (idat_reach length)) length).1)
        ihdr file3
  else if chunk_type ≠ str_IEND then Step.next ev ihdr file3
  else Step.halt ev Outcome.done

/-- Lines 60-210: one iteration of the chunk loop, on the unread rest of the
file. The buffer has `4+length` bytes (computed in `uint32_t`); a short `fread`
leaves the rest of it, and of `crc_file` (initialised to 0), as it was. -/
def chunk_iteration (env : Env) (ihdr : ihdr_t) (file : List Byte) : Step :=
  if file.length < 4 then Step.halt [Event.premature_eof] Outcome.aborted
  else
    let length : Nat := swap_uint32 (le_value (file.take 4))
    let file1 := file.drop 4
    let size : Nat := u32 (length + 4)
    let buffer : List Byte := file1.take size ++
      (List.range (size - file1.length)).map (fun i => env.heap (file1.length + i))
    let file2 := file1.drop size
    let crc_file : Nat := swap_uint32 (le_value (file2.take 4))
    process_chunk env ihdr buffer length crc_file (file2.drop 4)

/-- Lines 59-210: the chunk loop, at most `fuel` iterations. -/
def chunk_loop (env : Env) : Nat → ihdr_t → List Byte → List Event × Outcome
  | 0, _, _ => ([], Outcome.out_of_fuel)
  | fuel + 1, ihdr, file =>
    match chunk_iteration env ihdr file with
    | Step.halt ev o => (ev, o)
    | Step.next ev h rest =>
      let r := chunk_loop env fuel h rest
      (ev ++ r.1, r.2)

/-- Line 47. -/
def header_expected : List Byte := [137, 80, 78, 71, 13, 10, 26, 10]

/-- Lines 50-55: the check of the 8 header bytes. -/
def header_check (header_file : List Byte) : List Event :=
  (List.range 8).filterMap (fun i =>
    if header_file.getD i 0 ≠ header_expected.getD i 0 then
      some (Event.header_mismatch (i + 1) (header_expected.getD i 0).val
        (header_file.getD i 0).val)
    else none)

/-- Lines 47-212: the program on the content of the opened file. Every iteration
of the loop that goes on consumes at least 4 bytes, so `file.length + 1`
iterations are never used up. -/
def main (env : Env) (file : List Byte) : List Event × Outcome :=
  let header_file : List Byte := file.take 8 ++ List.replicate (8 - file.length) 0
  let r := chunk_loop env (file.length + 1) env.stack_ihdr (file.drop 8)
  (header_check header_file ++ r.1, r.2)

/-- One bit step of the CRC-32 of the PNG specification (reflected polynomial
`0xEDB88320`). -/
def crc32_bit (c : Nat) : Nat :=
  if c % 2 = 1 then (c >>> 1) ^^^ 0xEDB88320 else c >>> 1

/-- The CRC register after one more byte. -/
def crc32_byte (c : Nat) (b : Byte) : Nat :=
  crc32_bit (crc32_bit (crc32_bit (crc32_bit (crc32_bit (crc32_bit (crc32_bit (crc32_bit
    (c ^^^ b.val))))))))

/-- Modelled from the spec: png_utils.h is not part of the sources; the spec names
the function as the CRC-32 of a byte span. This is the CRC-32 of the PNG
specification, used to run the program on concrete files. -/
def crc32_ref (bs : List Byte) : Nat :=
  (bs.foldl crc32_byte 0xFFFFFFFF) ^^^ 0xFFFFFFFF

/-- The Adler-32 sums `(a, b)` after one more byte. -/
def adler32_byte (s : Nat × Nat) (b : Byte) : Nat × Nat :=
  ((s.1 + b.val) % 65521, (s.2 + (s.1 + b.val) % 65521) % 65521)

/-- Modelled from the spec: png_utils.h is not part of the sources; the spec names
the function as the Adler-32 of a byte span. This is the Adler-32 of zlib, used
to run the program on concrete files. -/
def adler32_ref (bs : List Byte) : Nat :=
  let s := bs.foldl adler32_byte (1, 0)
  s.2 * 65536 + s.1

/-- An environment for concrete runs: the reference checksums, heap and stack
memory initially zero. -/
def ref_env : Env where
  crc32 := crc32_ref
  adler32 := adler32_ref
  heap := fun _ => 0
  stack_ihdr := ihdr_t.of_bytes []

/-- The four bytes of a 32-bit value in the file (big-endian). -/
def be_bytes32 (n : Nat) : List Byte :=
  [Fin.ofNat (n / 2 ^ 24), Fin.ofNat (n / 2 ^ 16), Fin.ofNat (n / 2 ^ 8), Fin.ofNat n]

/-- The two bytes of a 16-bit value in a DEFLATE stored block (little-endian). -/
def le_bytes16 (n : Nat) : List Byte := [Fin.ofNat n, Fin.ofNat (n / 2 ^ 8)]

/-- The big-endian value of a byte sequence. -/
def be_value (bs : List Byte) : Nat := bs.foldl (fun acc b => acc * 256 + b.val) 0

/-- The ChunkRecord of the spec: type tag, payload and stored CRC. -/
structure Chunk where
  type : List Byte
  payload : List Byte
  crc : Nat
deriving DecidableEq, Repr

/-- The bytes of a chunk in the file: length, type tag, payload, CRC. -/
def Chunk.frame (c : Chunk) : List Byte :=
  be_bytes32 c.payload.length ++ c.type ++ c.payload ++ be_bytes32 c.crc

/-- The bytes of a sequence of chunks. -/
def frames : List Chunk → List Byte
  | [] => []
  | c :: cs => c.frame ++ frames cs

/-- The events of an iteration. -/
def Step.events : Step → List Event
  | Step.halt ev _ => ev
  | Step.next ev _ _ => ev

/-- The error lines of the program (those starting with `!!! ERROR !!!`). -/
def Event.is_finding : Event → Bool
  | Event.header_mismatch _ _ _ => true
  | Event.premature_eof => true
  | Event.crc_mismatch => true
  | Event.fcheck_mismatch => true
  | Event.nlen_mismatch _ _ => true
  | Event.stored_length_mismatch _ _ => true
  | Event.adler_mismatch => true
  | _ => false

/-- The summary lines of chunks. -/
def Event.is_summary : Event → Bool
  | Event.chunk_summary _ _ _ _ _ _ _ _ => true
  | _ => false

/-- The header mismatch lines. -/
def Event.is_header_mismatch : Event → Bool
  | Event.header_mismatch _ _ _ => true
  | _ => false

/-- The stored-length mismatch lines. -/
def Event.is_stored_length_mismatch : Event → Bool
  | Event.stored_length_mismatch _ _ => true
  | _ => false

/-- The NLEN mismatch lines. -/
def Event.is_nlen_mismatch : Event → Bool
  | Event.nlen_mismatch _ _ => true
  | _ => false

/-- The lines printed by the IHDR and IDAT branches. -/
def Event.from_branch : Event → Bool
  | Event.header_mismatch _ _ _ => false
  | Event.premature_eof => false
  | Event.chunk_summary _ _ _ _ _ _ _ _ => false
  | Event.crc_mismatch => false
  | _ => true

/-- The summary line the program prints for a chunk. -/
def Chunk.summary (env : Env) (c : Chunk) : Event :=
  Event.chunk_summary (c.type.take 4) (property_bit (c.type.getD 0 0))
    (property_bit (c.type.getD 1 0)) (property_bit (c.type.getD 2 0))
    (property_bit (c.type.getD 3 0)) c.payload.length c.crc
    (u32 (env.crc32 (c.type ++ c.payload)))

/-- A chunk as the file format frames it: a 4-byte type tag, a payload whose
length plus 4 fits in 32 bits, and a 32-bit CRC. -/
def Chunk.well_framed (c : Chunk) : Prop :=
  c.type.length = 4 ∧ c.payload.length + 4 < 2 ^ 32 ∧ c.crc < 2 ^ 32

instance (c : Chunk) : Decidable c.well_framed := by
  unfold Chunk.well_framed; infer_instance

/-- BTYPE of an IDAT payload. -/
def payload_btype (payload : List Byte) : Nat := ((payload.getD 2 0).val &&& 6) >>> 1

/-- LEN of an IDAT payload with a stored block. -/
def payload_len (payload : List Byte) : Nat :=
  (payload.getD 3 0).val + 256 * (payload.getD 4 0).val

/-- NLEN of an IDAT payload with a stored block. -/
def payload_nlen (payload : List Byte) : Nat :=
  (payload.getD 5 0).val + 256 * (payload.getD 6 0).val

/-- The IDAT payloads on which every access of the IDAT branch stays inside the
buffer. -/
def idat_in_bounds (payload : List Byte) : Prop :=
  3 ≤ payload.length ∧ (payload_btype payload = 0 → 7 + payload_len payload ≤ payload.length)

instance (payload : List Byte) : Decidable (idat_in_bounds payload) := by
  unfold idat_in_bounds; infer_instance

/-- The loop reaches its head with `ihdr'` and the unread rest `file'` after some
iterations from `ihdr` and `file`, having printed `evs`. -/
inductive Reaches (env : Env) : ihdr_t → List Byte → List Event → ihdr_t → List Byte → Prop
  | refl (ihdr : ihdr_t) (file : List Byte) : Reaches env ihdr file [] ihdr file
  | step {ihdr h ihdr' : ihdr_t} {file rest file' : List Byte} {ev evs : List Event} :
      chunk_iteration env ihdr file = Step.next ev h rest →
      Reaches env h rest evs ihdr' file' →
      Reaches env ihdr file (ev ++ evs) ihdr' file'

/-- A chunk that carries the reference CRC-32 of its type tag and payload. -/
def mk_chunk (type payload : List Byte) : Chunk :=
  { type := type, payload := payload, crc := crc32_ref (type ++ payload) }

/-- The IHDR payload of a 1x1 image, 8-bit grayscale. -/
def scenario_ihdr : List Byte := [0, 0, 0, 1, 0, 0, 0, 1, 8, 0, 0, 0, 0]

/-- The row data of the 1x1 image: the filter byte and one sample. -/
def scenario_data : List Byte := [0, 255]

/-- The IDAT payload of the 1x1 image: zlib header `78 01`, one final stored
block with LEN = 2, the row data and its Adler-32. -/
def scenario_idat : List Byte :=
  [0x78, 0x01, 1] ++ le_bytes16 2 ++ le_bytes16 65533 ++ scenario_data ++
    be_bytes32 (adler32_ref scenario_data)

/-- The three chunks of the minimal valid PNG file. -/
def scenario_chunks : List Chunk :=
  [mk_chunk str_IHDR scenario_ihdr, mk_chunk str_IDAT scenario_idat, mk_chunk str_IEND []]

/-- The lines printed for a chunk: all but the header mismatch and the premature
end of file. -/
def Event.from_chunk : Event → Bool
  | Event.header_mismatch _ _ _ => false
  | Event.premature_eof => false
  | _ => true

/-- The lines printed by the chunk loop: all but the header mismatch. -/
def Event.from_loop : Event → Bool
  | Event.header_mismatch _ _ _ => false
  | _ => true

/-- The lines of the IDAT branch up to BTYPE (lines 108-138), for the first
three payload bytes. -/
def idat_head (cmf flg block_format : Byte) : List Event :=
  [Event.zlib_header cmf.val (cmf.val &&& 15) ((cmf.val &&& 240) >>> 4) flg.val
    (flg.val &&& 31)] ++
  (if (cmf.val * 256 + flg.val) % 31 ≠ 0 then [Event.fcheck_mismatch] else []) ++
  [Event.block_header ((flg.val &&& 32) >>> 5) ((flg.val &&& 129) >>> 6) block_format.val
    (block_format.val &&& 7) (block_format.val &&& 1) ((block_format.val &&& 6) >>> 1)]

/-- The lines of the stored block up to the length check (lines 144-188), for
given LEN and NLEN. -/
def stored_head (ihdr : ihdr_t) (len nlen : Nat) : List Event :=
  [Event.len_nlen len nlen] ++
  (if len + nlen ≠ 65535 then [Event.nlen_mismatch (65535 - len) nlen] else []) ++
  (if (len : Int) ≠ expected_len ihdr then
    [Event.stored_length_mismatch len (expected_len ihdr)] else [])

/-- The lines of the Adler-32 check (lines 198-202), for given stored and
computed values. -/
def adler_lines (adler32_file adler32_computed : Nat) : List Event :=
  [Event.adler_values adler32_file adler32_computed] ++
  (if adler32_file ≠ adler32_computed then [Event.adler_mismatch] else [])

/-- The Adler-32 line. -/
def Event.is_adler_mismatch : Event → Bool
  | Event.adler_mismatch => true
  | _ => false

/-- The FCHECK line. -/
def Event.is_fcheck_mismatch : Event → Bool
  | Event.fcheck_mismatch => true
  | _ => false

/-- The spec's samples per pixel of a color type: 3 for RGB (2), 2 for grayscale
with alpha (4), 4 for RGB with alpha (6), 1 for grayscale (0) and palette (3). -/
def spec_samples (color_type : Nat) : Nat :=
  if color_type = 2 then 3 else if color_type = 4 then 2 else if color_type = 6 then 4 else 1

/-- The spec's bytes of one row without the filter byte: `ceil(W*s*d / 8)`. -/
def spec_row_bytes (ihdr : ihdr_t) : Nat :=
  (ihdr.width * spec_samples ihdr.color_type.val * ihdr.bit_depth.val + 7) / 8

/-- The spec's expected length of the stored block: `H * (1 + ceil(W*s*d / 8))`. -/
def spec_expected_len (ihdr : ihdr_t) : Nat :=
  ihdr.height * (1 + spec_row_bytes ihdr)

/-- The spec's `decode_ihdr`: width and height are the big-endian values of
bytes 0-3 and 4-7 of the payload, the five other fields are bytes 8 to 12. -/
def decode_ihdr (payload : List Byte) : ihdr_t where
  width := be_value (payload.take 4)
  height := be_value ((payload.drop 4).take 4)
  bit_depth := payload.getD 8 0
  color_type := payload.getD 9 0
  comp_method := payload.getD 10 0
  filter_method := payload.getD 11 0
  interlace_method := payload.getD 12 0

/-- The line the IHDR branch prints for a header. -/
def ihdr_line (h : ihdr_t) : Event :=
  Event.ihdr_fields h.width h.height h.bit_depth.val h.color_type.val h.comp_method.val
    h.filter_method.val h.interlace_method.val

/-- The IDAT payload with one stored block: zlib header, block byte, LEN and its
complement (little-endian), the data and the stored Adler-32 (big-endian). -/
def stored_idat_payload (cmf flg block_format : Byte) (len : Nat) (data : List Byte)
    (adler : Nat) : List Byte :=
  [cmf, flg, block_format] ++ le_bytes16 len ++ le_bytes16 (65535 - len) ++ data ++
    be_bytes32 adler

/-- A chunk that carries the CRC-32, as computed by `env`, of its type tag and
payload. -/
def env_chunk (env : Env) (type payload : List Byte) : Chunk :=
  { type := type, payload := payload, crc := u32 (env.crc32 (type ++ payload)) }

/-- The line with the fields of IHDR. -/
def Event.is_ihdr_fields : Event → Bool
  | Event.ihdr_fields _ _ _ _ _ _ _ => true
  | _ => false

/-- The exit status of the process: 0 when `main` falls off its end (C99), 1 for
`return 1`; none where the model's iteration bound was reached. -/
def exit_status : Outcome → Option Nat
  | Outcome.done => some 0
  | Outcome.aborted => some 1
  | Outcome.out_of_fuel => none

/-- The type tag `process_chunk` reads from a buffer. -/
def chunk_tag (env : Env) (buffer : List Byte) : List Byte :=
  [buffer.getD 0 (env.heap 0), buffer.getD 1 (env.heap 1), buffer.getD 2 (env.heap 2),
    buffer.getD 3 (env.heap 3)]

/-- The summary line and the CRC line `process_chunk` prints for a buffer (lines
83-87). -/
def chunk_lines (env : Env) (buffer : List Byte) (length crc_file : Nat) : List Event :=
  [Event.chunk_summary (chunk_tag env buffer) (property_bit (buffer.getD 0 (env.heap 0)))
    (property_bit (buffer.getD 1 (env.heap 1))) (property_bit (buffer.getD 2 (env.heap 2)))
    (property_bit (buffer.getD 3 (env.heap 3))) length crc_file (u32 (env.crc32 buffer))] ++
  (if crc_file ≠ u32 (env.crc32 buffer) then [Event.crc_mismatch] else [])

/-! ## Bytes and words -/

theorem length_be_bytes32 (n : Nat) : (be_bytes32 n).length = 4 := rfl

theorem fin_ofNat_val (n : Nat) : (Fin.ofNat n : Byte).val = n % 256 := rfl

theorem swap_le_value4 (a b c d : Byte) :
    swap_uint32 (le_value [a, b, c, d]) =
      a.val * 2 ^ 24 + b.val * 2 ^ 16 + c.val * 2 ^ 8 + d.val := by
  simp only [swap_uint32, le_value]
  omega

theorem swap_le_be_bytes32 (n : Nat) : swap_uint32 (le_value (be_bytes32 n)) = u32 n := by
  simp only [be_bytes32, swap_le_value4, fin_ofNat_val, u32]
  omega

theorem u32_of_lt {n : Nat} (h : n < 2 ^ 32) : u32 n = n := Nat.mod_eq_of_lt h

theorem u32_lt (n : Nat) : u32 n < 2 ^ 32 := Nat.mod_lt _ (by norm_num)

theorem list_length_four {α : Type} (l : List α) (h : l.length = 4) :
    ∃ a b c d, l = [a, b, c, d] := by
  match l, h with
  | [a, b, c, d], _ => exact ⟨a, b, c, d, rfl⟩

/-! ## One iteration on a framed chunk -/

theorem chunk_iteration_frame (env : Env) (ihdr : ihdr_t) (c : Chunk) (rest : List Byte)
    (hc : c.well_framed) :
    chunk_iteration env ihdr (c.frame ++ rest) =
      process_chunk env ihdr (c.type ++ c.payload) c.payload.length c.crc rest := by
  obtain ⟨htype, hlen, hcrc⟩ := hc
  have hfile : c.frame ++ rest =
      be_bytes32 c.payload.length ++ ((c.type ++ c.payload) ++ (be_bytes32 c.crc ++ rest)) := by
    simp [Chunk.frame, List.append_assoc]
  have hL : u32 c.payload.length = c.payload.length := u32_of_lt (by omega)
  have hsize : u32 (c.payload.length + 4) = (c.type ++ c.payload).length := by
    rw [u32_of_lt hlen, List.length_append, htype]; omega
  unfold chunk_iteration
  rw [hfile]
  have h4 : ¬ (be_bytes32 c.payload.length ++
      ((c.type ++ c.payload) ++ (be_bytes32 c.crc ++ rest))).length < 4 := by
    simp [length_be_bytes32]
  rw [if_neg h4]
  have htake : (be_bytes32 c.payload.length ++
      ((c.type ++ c.payload) ++ (be_bytes32 c.crc ++ rest))).take 4 =
      be_bytes32 c.payload.length := by
    rw [List.take_left' (length_be_bytes32 _)]
  have hdrop : (be_bytes32 c.payload.length ++
      ((c.type ++ c.payload) ++ (be_bytes32 c.crc ++ rest))).drop 4 =
      (c.type ++ c.payload) ++ (be_bytes32 c.crc ++ rest) := by
    rw [List.drop_left' (length_be_bytes32 _)]
  simp only [htake, hdrop, swap_le_be_bytes32, hL, hsize]
  rw [List.take_left' rfl, List.drop_left' rfl, List.take_left' (length_be_bytes32 _),
    List.drop_left' (length_be_bytes32 _), swap_le_be_bytes32, u32_of_lt hcrc]
  have hz : (c.type ++ c.payload).length -
      ((c.type ++ c.payload) ++ (be_bytes32 c.crc ++ rest)).length = 0 := by
    simp
  rw [hz]
  simp

/-! ## The cases of an iteration -/

theorem ihdr_branch_all (ihdr : ihdr_t) (buffer : List Byte) (length : Nat) :
    (ihdr_branch ihdr buffer length).1.all Event.from_branch = true := by
  unfold ihdr_branch
  split_ifs <;> simp [Event.from_branch]

theorem stored_block_all (env : Env) (ihdr : ihdr_t) (buffer : List Byte) (length : Nat) :
    (stored_block env ihdr buffer length).1.all Event.from_branch = true := by
  unfold stored_block
  split
  · dsimp only
    split_ifs <;> simp [Event.from_branch]
  · simp

theorem idat_branch_all (env : Env) (ihdr : ihdr_t) (buffer : List Byte) (length : Nat) :
    (idat_branch env ihdr buffer length).1.all Event.from_branch = true := by
  unfold idat_branch
  split
  · dsimp only
    have hsb := stored_block_all env ihdr buffer length
    split_ifs <;> simp [Event.from_branch, hsb]
  · simp

theorem ihdr_branch_some {ihdr h : ihdr_t} {buffer : List Byte} {length : Nat}
    {ev1 : List Event} (hbr : ihdr_branch ihdr buffer length = (ev1, some h)) :
    ev1.filter Event.is_ihdr_fields ≠ [] := by
  unfold ihdr_branch at hbr
  split_ifs at hbr
  · simp only [Prod.mk.injEq] at hbr
    rw [← hbr.1]
    simp [List.filter_cons, Event.is_ihdr_fields]
  · simp at hbr

theorem ihdr_branch_beyond_all (env : Env) (ihdr : ihdr_t) (buffer : List Byte)
    (length : Nat) :
    (ihdr_branch_beyond env ihdr buffer length).1.all Event.from_branch = true ∧
    (ihdr_branch_beyond env ihdr buffer length).1.filter Event.is_ihdr_fields ≠ [] := by
  unfold ihdr_branch_beyond
  simp [Event.from_branch, List.filter_cons, Event.is_ihdr_fields]

theorem length_beyond (env : Env) (buffer : List Byte) (n : Nat) :
    (beyond env buffer n).length = max buffer.length n := by
  simp only [beyond, List.length_append, List.length_map, List.length_range]
  omega

theorem beyond_of_le (env : Env) (buffer : List Byte) (n : Nat) (h : n ≤ buffer.length) :
    beyond env buffer n = buffer := by
  simp [beyond, Nat.sub_eq_zero_of_le h]

theorem idat_branch_long (env : Env) (ihdr : ihdr_t) (buffer : List Byte) (length : Nat)
    (h : idat_reach length ≤ buffer.length) : (idat_branch env ihdr buffer length).2 = true := by
  have h1 : length + 4 ≤ buffer.length := le_trans (le_max_left _ _) h
  have h2 : 11 + 65535 ≤ buffer.length := le_trans (le_max_right _ _) h
  match buffer, h1, h2 with
  | b0 :: b1 :: b2 :: b3 :: b4 :: b5 :: b6 :: b7 :: b8 :: b9 :: b10 :: tl, h1, h2 =>
    simp only [idat_branch, stored_block, List.getElem?_cons_succ, List.getElem?_cons_zero]
    have hl : u16 (b7.val + b8.val * 256) < 65536 := Nat.mod_lt _ (by norm_num)
    split_ifs <;> first | rfl | omega

/-- When an access of the IDAT branch leaves the buffer, the branch run on the
buffer and the memory that follows it is complete: no access leaves that. -/
theorem idat_branch_beyond_complete (env : Env) (ihdr : ihdr_t) (buffer : List Byte)
    (length : Nat) :
    (idat_branch env ihdr (beyond env buffer (idat_reach length)) length).2 = true :=
  idat_branch_long env ihdr _ length (by rw [length_beyond]; exact le_max_right _ _)

theorem process_chunk_cases (env : Env) (ihdr : ihdr_t) (buffer : List Byte)
    (length crc_file : Nat) :
    (∃ bev h, (∀ file3, process_chunk env ihdr buffer length crc_file file3 =
          Step.next (chunk_lines env buffer length crc_file ++ bev) h file3) ∧
        bev.all Event.from_branch = true ∧ chunk_tag env buffer ≠ str_IEND ∧
        (h = ihdr ∨
          (chunk_tag env buffer = str_IHDR ∧ bev.filter Event.is_ihdr_fields ≠ []))) ∨
    ((∀ file3, process_chunk env ihdr buffer length crc_file file3 =
        Step.halt (chunk_lines env buffer length crc_file) Outcome.done) ∧
      chunk_tag env buffer = str_IEND) := by
  have hdef : ∀ file3, process_chunk env ihdr buffer length crc_file file3 =
      (if chunk_tag env buffer = str_IHDR then
        match ihdr_branch ihdr buffer length with
        | (ev1, some h) => Step.next (chunk_lines env buffer length crc_file ++ ev1) h file3
        | (_, none) =>
          Step.next (chunk_lines env buffer length crc_file ++
            (ihdr_branch_beyond env ihdr buffer length).1)
            (ihdr_branch_beyond env ihdr buffer length).2 file3
      else if chunk_tag env buffer = str_IDAT then
        match idat_branch env ihdr buffer length with
        | (ev1, true) => Step.next (chunk_lines env buffer length crc_file ++ ev1) ihdr file3
        | (_, false) =>
          Step.next (chunk_lines env buffer length crc_file ++
            (idat_branch env ihdr (beyond env buffer (idat_reach length)) length).1)
            ihdr file3
      else if chunk_tag env buffer ≠ str_IEND then
        Step.next (chunk_lines env buffer length crc_file) ihdr file3
      else Step.halt (chunk_lines env buffer length crc_file) Outcome.done) := fun _ => rfl
  by_cases h1 : chunk_tag env buffer = str_IHDR
  · left
    have hne : chunk_tag env buffer ≠ str_IEND := by rw [h1]; decide
    rcases hbr : ihdr_branch ihdr buffer length with ⟨ev1, _ | h⟩
    · refine ⟨(ihdr_branch_beyond env ihdr buffer length).1,
        (ihdr_branch_beyond env ihdr buffer length).2, fun file3 => ?_,
        (ihdr_branch_beyond_all env ihdr buffer length).1, hne,
        Or.inr ⟨h1, (ihdr_branch_beyond_all env ihdr buffer length).2⟩⟩
      rw [hdef, if_pos h1, hbr]
    · have hall := ihdr_branch_all ihdr buffer length
      rw [hbr] at hall
      refine ⟨ev1, h, fun file3 => ?_, hall, hne, Or.inr ⟨h1, ihdr_branch_some hbr⟩⟩
      rw [hdef, if_pos h1, hbr]
  · by_cases h2 : chunk_tag env buffer = str_IDAT
    · left
      have hne : chunk_tag env buffer ≠ str_IEND := by rw [h2]; decide
      rcases hbr : idat_branch env ihdr buffer length with ⟨ev1, _ | _⟩
      · refine ⟨(idat_branch env ihdr (beyond env buffer (idat_reach length)) length).1, ihdr,
          fun file3 => ?_, idat_branch_all env ihdr _ length, hne, Or.inl rfl⟩
        rw [hdef, if_neg h1, if_pos h2, hbr]
      · have hall := idat_branch_all env ihdr buffer length
        rw [hbr] at hall
        refine ⟨ev1, ihdr, fun file3 => ?_, hall, hne, Or.inl rfl⟩
        rw [hdef, if_neg h1, if_pos h2, hbr]
    · by_cases h3 : chunk_tag env buffer ≠ str_IEND
      · left
        refine ⟨[], ihdr, fun file3 => ?_, rfl, h3, Or.inl rfl⟩
        rw [hdef, if_neg h1, if_neg h2, if_pos h3, List.append_nil]
      · right
        refine ⟨fun file3 => ?_, not_not.mp h3⟩
        rw [hdef, if_neg h1, if_neg h2, if_neg h3]

theorem chunk_tag_cons (env : Env) (t0 t1 t2 t3 : Byte) (tl : List Byte) :
    chunk_tag env (t0 :: t1 :: t2 :: t3 :: tl) = [t0, t1, t2, t3] := rfl

theorem chunk_lines_cons (env : Env) (t0 t1 t2 t3 : Byte) (tl : List Byte)
    (length crc_file : Nat) :
    chunk_lines env (t0 :: t1 :: t2 :: t3 :: tl) length crc_file =
      Event.chunk_summary [t0, t1, t2, t3] (property_bit t0) (property_bit t1)
          (property_bit t2) (property_bit t3) length crc_file
          (u32 (env.crc32 (t0 :: t1 :: t2 :: t3 :: tl))) ::
        (if crc_file ≠ u32 (env.crc32 (t0 :: t1 :: t2 :: t3 :: tl)) then [Event.crc_mismatch]
          else []) := rfl

theorem process_chunk_next_file {env : Env} {ihdr h : ihdr_t} {buffer : List Byte}
    {length crc_file : Nat} {file3 rest : List Byte} {ev : List Event}
    (hstep : process_chunk env ihdr buffer length crc_file file3 = Step.next ev h rest) :
    rest = file3 := by
  rcases process_chunk_cases env ihdr buffer length crc_file with
    ⟨bev, h', heq, -⟩ | ⟨heq, -⟩
  · rw [heq file3] at hstep
    simp only [Step.next.injEq] at hstep
    exact hstep.2.2.symm
  · rw [heq file3] at hstep
    simp at hstep

theorem process_chunk_events (env : Env) (ihdr : ihdr_t) (t0 t1 t2 t3 : Byte)
    (tl : List Byte) (length crc_file : Nat) (file3 : List Byte) :
    ∃ bev, bev.all Event.from_branch = true ∧
      (process_chunk env ihdr (t0 :: t1 :: t2 :: t3 :: tl) length crc_file file3).events =
        Event.chunk_summary [t0, t1, t2, t3] (property_bit t0) (property_bit t1)
          (property_bit t2) (property_bit t3) length crc_file
          (u32 (env.crc32 (t0 :: t1 :: t2 :: t3 :: tl))) ::
        ((if crc_file ≠ u32 (env.crc32 (t0 :: t1 :: t2 :: t3 :: tl)) then [Event.crc_mismatch]
          else []) ++ bev) := by
  rcases process_chunk_cases env ihdr (t0 :: t1 :: t2 :: t3 :: tl) length crc_file with
    ⟨bev, h', heq, hall, -⟩ | ⟨heq, -⟩
  · refine ⟨bev, hall, ?_⟩
    rw [heq file3, chunk_lines_cons]
    rfl
  · refine ⟨[], rfl, ?_⟩
    rw [heq file3, chunk_lines_cons, List.append_nil]
    rfl

/-! ## The loop and its iteration bound -/

theorem chunk_iteration_next_length {env : Env} {ihdr h : ihdr_t} {file rest : List Byte}
    {ev : List Event} (hstep : chunk_iteration env ihdr file = Step.next ev h rest) :
    rest.length + 4 ≤ file.length := by
  unfold chunk_iteration at hstep
  split_ifs at hstep with h4
  have := process_chunk_next_file hstep
  subst this
  simp only [List.length_drop]
  omega

theorem chunk_loop_fuel (env : Env) (fuel fuel' : Nat) :
    ∀ (ihdr : ihdr_t) (file : List Byte), file.length < fuel → file.length < fuel' →
      chunk_loop env fuel ihdr file = chunk_loop env fuel' ihdr file := by
  induction fuel generalizing fuel' with
  | zero => intro _ _ h; omega
  | succ n ih =>
    intro ihdr file h1 h2
    cases fuel' with
    | zero => omega
    | succ m =>
      simp only [chunk_loop]
      cases hstep : chunk_iteration env ihdr file with
      | halt ev o => rfl
      | next ev h rest =>
        have hl := chunk_iteration_next_length hstep
        simp only
        rw [ih m h rest (by omega) (by omega)]

theorem chunk_loop_halt {env : Env} {fuel : Nat} {ihdr : ihdr_t} {file : List Byte}
    {ev : List Event} {o : Outcome} (hstep : chunk_iteration env ihdr file = Step.halt ev o) :
    chunk_loop env (fuel + 1) ihdr file = (ev, o) := by
  simp only [chunk_loop, hstep]

theorem chunk_loop_next {env : Env} {fuel : Nat} {ihdr h : ihdr_t} {file rest : List Byte}
    {ev : List Event} (hfuel : file.length < fuel)
    (hstep : chunk_iteration env ihdr file = Step.next ev h rest) :
    chunk_loop env fuel ihdr file =
      (ev ++ (chunk_loop env fuel h rest).1, (chunk_loop env fuel h rest).2) := by
  have hl := chunk_iteration_next_length hstep
  cases fuel with
  | zero => omega
  | succ n =>
    simp only [chunk_loop, hstep]
    rw [chunk_loop_fuel env n (n + 1) h rest (by omega) (by omega)]
    simp only [chunk_loop]

theorem chunk_loop_reaches {env : Env} {ihdr ihdr' : ihdr_t} {file file' : List Byte}
    {evs : List Event} (hr : Reaches env ihdr file evs ihdr' file') :
    file'.length ≤ file.length ∧ ∀ fuel, file.length < fuel →
      chunk_loop env fuel ihdr file =
        (evs ++ (chunk_loop env fuel ihdr' file').1, (chunk_loop env fuel ihdr' file').2) := by
  induction hr with
  | refl ihdr file => exact ⟨le_refl _, fun fuel _ => by simp⟩
  | step hstep _ ih =>
    have hl := chunk_iteration_next_length hstep
    refine ⟨by omega, fun fuel hfuel => ?_⟩
    rw [chunk_loop_next hfuel hstep, ih.2 fuel (by omega)]
    simp

theorem main_eq (env : Env) (file : List Byte) :
    main env file =
      (header_check (file.take 8 ++ List.replicate (8 - file.length) 0) ++
        (chunk_loop env (file.length + 1) env.stack_ihdr (file.drop 8)).1,
       (chunk_loop env (file.length + 1) env.stack_ihdr (file.drop 8)).2) := rfl

theorem main_append (env : Env) (sig rest : List Byte) (hsig : sig.length = 8) :
    main env (sig ++ rest) =
      (header_check sig ++ (chunk_loop env (rest.length + 1) env.stack_ihdr rest).1,
       (chunk_loop env (rest.length + 1) env.stack_ihdr rest).2) := by
  rw [main_eq, List.take_left' hsig, List.drop_left' hsig,
    chunk_loop_fuel env ((sig ++ rest).length + 1) (rest.length + 1) _ rest
      (by simp only [List.length_append]; omega) (by omega)]
  have h0 : 8 - (sig ++ rest).length = 0 := by simp [hsig]
  rw [h0]
  simp

/-! ## The lines an iteration prints -/

theorem not_mem_of_all_from_branch {bev : List Event} {e : Event}
    (hb : bev.all Event.from_branch = true) (he : e.from_branch = false) : e ∉ bev := by
  intro hmem
  have := List.all_eq_true.mp hb e hmem
  rw [he] at this
  exact Bool.false_ne_true this

theorem frames_cons_append (c : Chunk) (cs : List Chunk) (tail : List Byte) :
    frames (c :: cs) ++ tail = c.frame ++ (frames cs ++ tail) := by
  simp [frames, List.append_assoc]

theorem chunk_iteration_short {env : Env} {ihdr : ihdr_t} {file : List Byte}
    (h : file.length < 4) :
    chunk_iteration env ihdr file = Step.halt [Event.premature_eof] Outcome.aborted := by
  unfold chunk_iteration
  rw [if_pos h]

theorem chunk_loop_short {env : Env} {ihdr : ihdr_t} {file : List Byte} (fuel : Nat)
    (h : file.length < 4) :
    chunk_loop env (fuel + 1) ihdr file = ([Event.premature_eof], Outcome.aborted) :=
  chunk_loop_halt (chunk_iteration_short h)

/-! ## C1: the CRC check -/

theorem crc_mismatch_mem_process_chunk (env : Env) (ihdr : ihdr_t) (t0 t1 t2 t3 : Byte)
    (tl : List Byte) (length crc_file : Nat) (file3 : List Byte) :
    Event.crc_mismatch ∈
        (process_chunk env ihdr (t0 :: t1 :: t2 :: t3 :: tl) length crc_file file3).events ↔
      crc_file ≠ u32 (env.crc32 (t0 :: t1 :: t2 :: t3 :: tl)) := by
  obtain ⟨bev, hb, hev⟩ := process_chunk_events env ihdr t0 t1 t2 t3 tl length crc_file file3
  rw [hev]
  have hnb : Event.crc_mismatch ∉ bev := not_mem_of_all_from_branch hb rfl
  by_cases hcrc : crc_file = u32 (env.crc32 (t0 :: t1 :: t2 :: t3 :: tl))
  · simp [hcrc, hnb]
  · simp [hcrc]

theorem crc_mismatch_mem_iteration (env : Env) (ihdr : ihdr_t) (c : Chunk) (rest : List Byte)
    (hc : c.well_framed) :
    Event.crc_mismatch ∈ (chunk_iteration env ihdr (c.frame ++ rest)).events ↔
      c.crc ≠ u32 (env.crc32 (c.type ++ c.payload)) := by
  rw [chunk_iteration_frame env ihdr c rest hc]
  obtain ⟨t0, t1, t2, t3, ht⟩ := list_length_four c.type hc.1
  rw [ht]
  exact crc_mismatch_mem_process_chunk env ihdr t0 t1 t2 t3 c.payload _ _ rest

theorem no_crc_mismatch_loop (env : Env) (tail : List Byte) (htail : tail.length < 4) :
    ∀ (cs : List Chunk) (ihdr : ihdr_t) (fuel : Nat),
      (∀ c ∈ cs, c.well_framed ∧ c.crc = u32 (env.crc32 (c.type ++ c.payload))) →
      (frames cs ++ tail).length < fuel →
      Event.crc_mismatch ∉ (chunk_loop env fuel ihdr (frames cs ++ tail)).1 := by
  intro cs
  induction cs with
  | nil =>
    intro ihdr fuel _ hfuel
    cases fuel with
    | zero => omega
    | succ n =>
      have : (frames [] ++ tail).length < 4 := by simpa [frames] using htail
      rw [chunk_loop_short n this]
      simp
  | cons c cs ih =>
    intro ihdr fuel hcs hfuel
    have hc := hcs c (List.mem_cons_self _ _)
    have hmem := crc_mismatch_mem_iteration env ihdr c (frames cs ++ tail) hc.1
    rw [frames_cons_append] at hfuel ⊢
    cases fuel with
    | zero => omega
    | succ n =>
      cases hstep : chunk_iteration env ihdr (c.frame ++ (frames cs ++ tail)) with
      | halt ev o =>
        rw [chunk_loop_halt hstep]
        rw [hstep] at hmem
        simp only [Step.events] at hmem
        exact fun h => (hmem.mp h) hc.2
      | next ev h rest =>
        rw [chunk_loop_next hfuel hstep]
        rw [hstep] at hmem
        simp only [Step.events] at hmem
        have hrest : rest = frames cs ++ tail := by
          rw [chunk_iteration_frame env ihdr c _ hc.1] at hstep
          exact process_chunk_next_file hstep
        have hl := chunk_iteration_next_length hstep
        subst hrest
        have := ih h (n + 1) (fun c' hc' => hcs c' (List.mem_cons_of_mem _ hc')) (by omega)
        simp only [List.mem_append, not_or]
        exact ⟨fun h => (hmem.mp h) hc.2, this⟩

theorem header_check_all (header_file : List Byte) :
    (header_check header_file).all Event.is_header_mismatch = true := by
  unfold header_check
  simp only [List.all_eq_true, List.mem_filterMap]
  rintro e ⟨i, _, hi⟩
  split_ifs at hi
  · simp only [Option.some.injEq] at hi
    subst hi
    rfl

/-- C1: the iteration on a framed chunk prints `CRC MISMATCH` exactly when the
stored CRC differs from the CRC-32 of type tag and payload; and a run on a file
made of chunks that all carry their CRC-32 prints no `CRC MISMATCH`. -/
theorem crc_mismatch_iff (env : Env) :
    (∀ (ihdr : ihdr_t) (c : Chunk) (rest : List Byte), c.well_framed →
      (Event.crc_mismatch ∈ (chunk_iteration env ihdr (c.frame ++ rest)).events ↔
        c.crc ≠ u32 (env.crc32 (c.type ++ c.payload)))) ∧
    (∀ (sig : List Byte) (cs : List Chunk) (tail : List Byte), sig.length = 8 →
      (∀ c ∈ cs, c.well_framed ∧ c.crc = u32 (env.crc32 (c.type ++ c.payload))) →
      tail.length < 4 →
      Event.crc_mismatch ∉ (main env (sig ++ (frames cs ++ tail))).1) := by
  refine ⟨fun ihdr c rest hc => crc_mismatch_mem_iteration env ihdr c rest hc, ?_⟩
  intro sig cs tail hsig hcs htail
  rw [main_append env sig _ hsig]
  simp only [List.mem_append, not_or]
  refine ⟨?_, no_crc_mismatch_loop env tail htail cs _ _ hcs (by omega)⟩
  intro hmem
  have := List.all_eq_true.mp (header_check_all sig) _ hmem
  exact Bool.false_ne_true this

set_option maxRecDepth 100000 in
/-- C1 at concrete inputs: an IEND chunk with stored CRC 0, and the minimal valid
PNG file. -/
theorem crc_mismatch_iff_witness :
    (Event.crc_mismatch ∈
        (chunk_iteration ref_env ref_env.stack_ihdr
          (Chunk.frame { type := str_IEND, payload := [], crc := 0 } ++ [])).events ↔
      (0 : Nat) ≠ u32 (ref_env.crc32 (str_IEND ++ []))) ∧
    Event.crc_mismatch ∉ (main ref_env (header_expected ++ (frames scenario_chunks ++ []))).1 :=
  ⟨(crc_mismatch_iff ref_env).1 ref_env.stack_ihdr
      { type := str_IEND, payload := [], crc := 0 } [] (by decide),
   (crc_mismatch_iff ref_env).2 header_expected scenario_chunks [] (by decide) (by decide)
      (by decide)⟩

/-! ## Framed chunks: accesses in bounds, summary lines, the step taken -/

theorem u16_of_bytes (a b : Byte) : u16 (a.val + b.val * 256) = a.val + 256 * b.val := by
  unfold u16
  omega

theorem stored_block_in_bounds (env : Env) (ihdr : ihdr_t) (t0 t1 t2 t3 : Byte)
    (payload : List Byte) (hb : 7 + payload_len payload ≤ payload.length) :
    (stored_block env ihdr (t0 :: t1 :: t2 :: t3 :: payload) payload.length).2 = true := by
  have h7 : 7 ≤ payload.length := by omega
  match payload, h7, hb with
  | p0 :: p1 :: p2 :: p3 :: p4 :: p5 :: p6 :: tl, _, hb =>
    simp only [payload_len, List.getD_cons_succ, List.getD_cons_zero, List.length_cons] at hb
    simp only [stored_block, List.getElem?_cons_succ, List.getElem?_cons_zero, u16_of_bytes,
      List.length_cons]
    rw [if_pos (by omega)]

theorem idat_branch_in_bounds (env : Env) (ihdr : ihdr_t) (t0 t1 t2 t3 : Byte)
    (payload : List Byte) (hb : idat_in_bounds payload) :
    (idat_branch env ihdr (t0 :: t1 :: t2 :: t3 :: payload) payload.length).2 = true := by
  obtain ⟨h3, hstored⟩ := hb
  match payload, h3, hstored with
  | p0 :: p1 :: p2 :: tl, _, hstored =>
    simp only [idat_branch, List.getElem?_cons_succ, List.getElem?_cons_zero]
    by_cases hbt : (p2.val &&& 6) >>> 1 = 0
    · rw [if_pos hbt]
      exact stored_block_in_bounds env ihdr t0 t1 t2 t3 _ (hstored hbt)
    · rw [if_neg hbt]

theorem ihdr_branch_in_bounds (ihdr : ihdr_t) (t0 t1 t2 t3 : Byte) (payload : List Byte)
    (hb : payload.length ≤ sizeof_ihdr) :
    ∃ h, (ihdr_branch ihdr (t0 :: t1 :: t2 :: t3 :: payload) payload.length).2 = some h := by
  unfold ihdr_branch
  rw [if_pos ⟨hb, by simp only [List.length_cons]; omega⟩]
  exact ⟨_, rfl⟩

theorem chunk_tag_frame (env : Env) (c : Chunk) (hc : c.well_framed) :
    chunk_tag env (c.type ++ c.payload) = c.type := by
  obtain ⟨t0, t1, t2, t3, ht⟩ := list_length_four c.type hc.1
  rw [ht]
  rfl

theorem iteration_continues (env : Env) (ihdr : ihdr_t) (c : Chunk) (hc : c.well_framed)
    (hne : c.type ≠ str_IEND) :
    ∃ ev h, ∀ rest, chunk_iteration env ihdr (c.frame ++ rest) = Step.next ev h rest := by
  rcases process_chunk_cases env ihdr (c.type ++ c.payload) c.payload.length c.crc with
    ⟨bev, h, heq, -⟩ | ⟨-, htg⟩
  · exact ⟨_, h, fun rest => by rw [chunk_iteration_frame env ihdr c rest hc, heq rest]⟩
  · rw [chunk_tag_frame env c hc] at htg
    exact absurd htg hne

theorem filter_summary_header_check (header_file : List Byte) :
    (header_check header_file).filter Event.is_summary = [] := by
  rw [List.filter_eq_nil_iff]
  intro e he
  have := List.all_eq_true.mp (header_check_all header_file) e he
  cases e <;> simp_all [Event.is_header_mismatch, Event.is_summary]

theorem from_chunk_of_from_branch {bev : List Event}
    (hb : bev.all Event.from_branch = true) : bev.all Event.from_chunk = true := by
  rw [List.all_eq_true] at hb ⊢
  intro e he
  have := hb e he
  cases e <;> simp_all [Event.from_branch, Event.from_chunk]

theorem chunk_lines_all (env : Env) (buffer : List Byte) (length crc_file : Nat) :
    (chunk_lines env buffer length crc_file).all Event.from_chunk = true := by
  unfold chunk_lines
  split_ifs <;> simp [Event.from_chunk]

theorem process_chunk_all_from_chunk (env : Env) (ihdr : ihdr_t) (buffer : List Byte)
    (length crc_file : Nat) (file3 : List Byte) :
    (process_chunk env ihdr buffer length crc_file file3).events.all Event.from_chunk = true := by
  rcases process_chunk_cases env ihdr buffer length crc_file with
    ⟨bev, h, heq, hall, -⟩ | ⟨heq, -⟩
  · rw [heq file3]
    simp only [Step.events, List.all_append, chunk_lines_all,
      from_chunk_of_from_branch hall, Bool.and_self]
  · rw [heq file3]
    exact chunk_lines_all env buffer length crc_file

theorem chunk_iteration_next_all {env : Env} {ihdr h : ihdr_t} {file rest : List Byte}
    {ev : List Event} (hstep : chunk_iteration env ihdr file = Step.next ev h rest) :
    ev.all Event.from_chunk = true := by
  unfold chunk_iteration at hstep
  split_ifs at hstep with h4
  have hall := process_chunk_all_from_chunk env ihdr
    ((file.drop 4).take (u32 (swap_uint32 (le_value (file.take 4)) + 4)) ++
      (List.range (u32 (swap_uint32 (le_value (file.take 4)) + 4) - (file.drop 4).length)).map
        (fun i => env.heap ((file.drop 4).length + i)))
    (swap_uint32 (le_value (file.take 4)))
    (swap_uint32 (le_value
      (((file.drop 4).drop (u32 (swap_uint32 (le_value (file.take 4)) + 4))).take 4)))
    (((file.drop 4).drop (u32 (swap_uint32 (le_value (file.take 4)) + 4))).drop 4)
  simp only at hstep
  rw [hstep] at hall
  exact hall

theorem reaches_all_from_chunk {env : Env} {ihdr ihdr' : ihdr_t} {file file' : List Byte}
    {evs : List Event} (hr : Reaches env ihdr file evs ihdr' file') :
    evs.all Event.from_chunk = true := by
  induction hr with
  | refl ihdr file => rfl
  | step hstep _ ih => rw [List.all_append, chunk_iteration_next_all hstep, ih]; rfl

theorem count_eof_of_all_from_chunk {evs : List Event}
    (h : evs.all Event.from_chunk = true) : evs.count Event.premature_eof = 0 := by
  rw [List.count_eq_zero]
  intro hmem
  have := List.all_eq_true.mp h _ hmem
  exact Bool.false_ne_true this

theorem count_eof_header_check (header_file : List Byte) :
    (header_check header_file).count Event.premature_eof = 0 := by
  rw [List.count_eq_zero]
  intro hmem
  have := List.all_eq_true.mp (header_check_all header_file) _ hmem
  exact Bool.false_ne_true this

/-- C3: when the loop reaches its head with fewer than 4 unread bytes (after any
number of iterations, also none, and also when the file ends exactly there),
the run prints `Premature end of file encountered` once, as its last line,
nothing for any further chunk, and ends with `return 1`. -/
theorem premature_eof_at_length (env : Env) (file : List Byte) (evs : List Event)
    (ihdr : ihdr_t) (rest : List Byte)
    (hreach : Reaches env env.stack_ihdr (file.drop 8) evs ihdr rest)
    (hshort : rest.length < 4) :
    main env file =
      (header_check (file.take 8 ++ List.replicate (8 - file.length) 0) ++ evs ++
        [Event.premature_eof], Outcome.aborted) ∧
    (main env file).1.count Event.premature_eof = 1 ∧
    (main env file).1.filter Event.is_summary = evs.filter Event.is_summary := by
  have hmain : main env file =
      (header_check (file.take 8 ++ List.replicate (8 - file.length) 0) ++ evs ++
        [Event.premature_eof], Outcome.aborted) := by
    rw [main_eq, (chunk_loop_reaches hreach).2 (file.length + 1)
      (by simp only [List.length_drop]; omega), chunk_loop_short file.length hshort]
    simp
  refine ⟨hmain, ?_, ?_⟩
  · rw [hmain]
    simp only [List.count_append, count_eof_header_check,
      count_eof_of_all_from_chunk (reaches_all_from_chunk hreach)]
    rfl
  · rw [hmain]
    simp only [List.filter_append, filter_summary_header_check, List.nil_append]
    simp [Event.is_summary]

set_option maxRecDepth 100000 in
/-- C3 on the valid header, a complete IHDR chunk and two more bytes. -/
theorem premature_eof_at_length_witness :
    main ref_env (header_expected ++ (frames [mk_chunk str_IHDR scenario_ihdr] ++ [0, 0])) =
      (header_check ((header_expected ++ (frames [mk_chunk str_IHDR scenario_ihdr] ++
          [0, 0])).take 8 ++ List.replicate (8 - (header_expected ++
          (frames [mk_chunk str_IHDR scenario_ihdr] ++ [0, 0])).length) 0) ++
        [Event.chunk_summary str_IHDR 0 0 0 0 13 981375829 981375829,
          Event.ihdr_fields 1 1 8 0 0 0 0] ++
        [Event.premature_eof], Outcome.aborted) ∧
    (main ref_env (header_expected ++ (frames [mk_chunk str_IHDR scenario_ihdr] ++
      [0, 0]))).1.count Event.premature_eof = 1 ∧
    (main ref_env (header_expected ++ (frames [mk_chunk str_IHDR scenario_ihdr] ++
      [0, 0]))).1.filter Event.is_summary =
      [Event.chunk_summary str_IHDR 0 0 0 0 13 981375829 981375829,
        Event.ihdr_fields 1 1 8 0 0 0 0].filter Event.is_summary :=
  premature_eof_at_length ref_env
    (header_expected ++ (frames [mk_chunk str_IHDR scenario_ihdr] ++ [0, 0]))
    [Event.chunk_summary str_IHDR 0 0 0 0 13 981375829 981375829,
      Event.ihdr_fields 1 1 8 0 0 0 0]
    (ihdr_t.of_bytes [1, 0, 0, 0, 1, 0, 0, 0, 8, 0, 0, 0, 0]) [0, 0]
    (@Reaches.step ref_env _ _ _ _ _ _
      [Event.chunk_summary str_IHDR 0 0 0 0 13 981375829 981375829,
        Event.ihdr_fields 1 1 8 0 0 0 0] [] (by decide) (Reaches.refl _ _))
    (by decide)

/-! ## C4: end of file inside a chunk -/

/-- The iteration on an IEND chunk whose 4 CRC bytes are missing from the file:
the stored CRC is read as 0 and the loop is left. -/
theorem iend_without_crc (env : Env) (ihdr : ihdr_t) :
    chunk_iteration env ihdr ([0, 0, 0, 0] ++ str_IEND) =
      Step.halt ([Event.chunk_summary str_IEND 0 0 0 0 0 0 (u32 (env.crc32 str_IEND))] ++
        (if 0 ≠ u32 (env.crc32 str_IEND) then [Event.crc_mismatch] else [])) Outcome.done := by
  have h : chunk_iteration env ihdr ([0, 0, 0, 0] ++ str_IEND) =
      process_chunk env ihdr [73, 69, 78, 68] 0 0 [] := rfl
  rcases process_chunk_cases env ihdr [73, 69, 78, 68] 0 0 with ⟨bev, h1, -, -, htg, -⟩ | ⟨heq, -⟩
  · exact absurd rfl htg
  · rw [h, heq []]
    simp only [chunk_lines, chunk_tag, List.getD_cons_zero, List.getD_cons_succ]
    rfl

set_option maxRecDepth 100000 in
/-- C4, the code at the failing inputs. First file: the valid header and an
IEND chunk whose 4 CRC bytes are missing; whatever the checksum functions are,
the run prints the summary line with a stored CRC of 0, `CRC MISMATCH` when the
CRC-32 of "IEND" is not 0, no `Premature end of file`, and leaves the loop as
after a complete IEND chunk. Second file: the valid header and an IHDR chunk
cut after 2 of its 4 CRC bytes; the chunk is decoded (its seven fields are
printed) before the next iteration finds the end of the file. Third file: an
IHDR chunk cut after its type tag; the fields are decoded from the unwritten
buffer. -/
theorem truncated_chunk_is_processed :
    (∀ env : Env, main env (header_expected ++ [0, 0, 0, 0] ++ str_IEND) =
      ([Event.chunk_summary str_IEND 0 0 0 0 0 0 (u32 (env.crc32 str_IEND))] ++
        (if 0 ≠ u32 (env.crc32 str_IEND) then [Event.crc_mismatch] else []),
       Outcome.done)) ∧
    main ref_env (header_expected ++ be_bytes32 13 ++ str_IHDR ++ scenario_ihdr ++ [58, 126]) =
      ([Event.chunk_summary str_IHDR 0 0 0 0 13 981336064 981375829, Event.crc_mismatch,
        Event.ihdr_fields 1 1 8 0 0 0 0, Event.premature_eof], Outcome.aborted) ∧
    main ref_env (header_expected ++ be_bytes32 13 ++ str_IHDR) =
      ([Event.chunk_summary str_IHDR 0 0 0 0 13 0 781215759, Event.crc_mismatch,
        Event.ihdr_fields 0 0 0 0 0 0 0, Event.premature_eof], Outcome.aborted) := by
  refine ⟨fun env => ?_, ?_, ?_⟩
  · have h : main env (header_expected ++ [0, 0, 0, 0] ++ str_IEND) =
        (match chunk_iteration env env.stack_ihdr ([0, 0, 0, 0] ++ str_IEND) with
         | Step.halt ev o => (ev, o)
         | Step.next ev h rest =>
           (ev ++ (chunk_loop env 16 h rest).1, (chunk_loop env 16 h rest).2)) := rfl
    rw [h, iend_without_crc]
  · decide
  · decide

/-! ## C5: the check of the file header -/

theorem length_filterMap_ite {α β : Type} (p : α → Prop) [DecidablePred p] (g : α → β)
    (l : List α) :
    (l.filterMap (fun i => if p i then some (g i) else none)).length =
      (l.filter (fun i => decide (p i))).length := by
  induction l with
  | nil => rfl
  | cons a l ih =>
    by_cases ha : p a
    · simp [List.filterMap_cons, List.filter_cons, ha, ih]
    · simp [List.filterMap_cons, List.filter_cons, ha, ih]

theorem chunk_iteration_all_from_loop (env : Env) (ihdr : ihdr_t) (file : List Byte) :
    (chunk_iteration env ihdr file).events.all Event.from_loop = true := by
  unfold chunk_iteration
  split_ifs with h4
  · rfl
  · have hall := process_chunk_all_from_chunk env ihdr
      ((file.drop 4).take (u32 (swap_uint32 (le_value (file.take 4)) + 4)) ++
        (List.range (u32 (swap_uint32 (le_value (file.take 4)) + 4) - (file.drop 4).length)).map
          (fun i => env.heap ((file.drop 4).length + i)))
      (swap_uint32 (le_value (file.take 4)))
      (swap_uint32 (le_value
        (((file.drop 4).drop (u32 (swap_uint32 (le_value (file.take 4)) + 4))).take 4)))
      (((file.drop 4).drop (u32 (swap_uint32 (le_value (file.take 4)) + 4))).drop 4)
    simp only
    rw [List.all_eq_true] at hall ⊢
    intro e he
    have := hall e he
    cases e <;> simp_all [Event.from_chunk, Event.from_loop]

theorem chunk_loop_all_from_loop (env : Env) (fuel : Nat) :
    ∀ (ihdr : ihdr_t) (file : List Byte),
      (chunk_loop env fuel ihdr file).1.all Event.from_loop = true := by
  induction fuel with
  | zero => intro _ _; rfl
  | succ n ih =>
    intro ihdr file
    have hit := chunk_iteration_all_from_loop env ihdr file
    simp only [chunk_loop]
    cases hstep : chunk_iteration env ihdr file with
    | halt ev o =>
      rw [hstep] at hit
      exact hit
    | next ev h rest =>
      rw [hstep] at hit
      simp only [Step.events] at hit
      simp only [List.all_append, hit, ih h rest, Bool.and_self]

theorem filter_header_mismatch_of_from_loop {evs : List Event}
    (h : evs.all Event.from_loop = true) : evs.filter Event.is_header_mismatch = [] := by
  rw [List.filter_eq_nil_iff]
  intro e he
  have := List.all_eq_true.mp h e he
  cases e <;> simp_all [Event.from_loop, Event.is_header_mismatch]

theorem filter_header_mismatch_header_check (header_file : List Byte) :
    (header_check header_file).filter Event.is_header_mismatch = header_check header_file := by
  rw [List.filter_eq_self]
  exact fun e he => List.all_eq_true.mp (header_check_all header_file) e he

theorem header_check_third (x : Byte) (hx : x ≠ 78) :
    header_check [137, 80, x, 71, 13, 10, 26, 10] = [Event.header_mismatch 3 78 x.val] := by
  have hr : List.range 8 = [0, 1, 2, 3, 4, 5, 6, 7] := by decide
  simp [header_check, hr, header_expected, List.filterMap_cons, hx]
  rfl

theorem header_check_expected : header_check header_expected = [] := by decide

/-- C5: for 8 header bytes `s`, the run prints one header mismatch line for each
position whose byte differs from the expected one, with position (from 1),
expected and found byte, and no other such line; the chunk loop then runs as it
does after the expected header. With only the third byte wrong, a run that ends
after IEND with the expected header still does, with exactly one header
mismatch line. -/
theorem header_check_findings (env : Env) (s rest : List Byte) (hs : s.length = 8) :
    (header_check s).length =
      ((List.range 8).filter
        (fun i => decide (s.getD i 0 ≠ header_expected.getD i 0))).length ∧
    (∀ i, i < 8 →
      (Event.header_mismatch (i + 1) (header_expected.getD i 0).val (s.getD i 0).val ∈
        header_check s ↔ s.getD i 0 ≠ header_expected.getD i 0)) ∧
    (∀ e ∈ header_check s, ∃ i, i < 8 ∧ s.getD i 0 ≠ header_expected.getD i 0 ∧
      e = Event.header_mismatch (i + 1) (header_expected.getD i 0).val (s.getD i 0).val) ∧
    (main env (s ++ rest)).1.filter Event.is_header_mismatch = header_check s ∧
    main env (s ++ rest) =
      (header_check s ++ (main env (header_expected ++ rest)).1,
       (main env (header_expected ++ rest)).2) ∧
    (∀ x : Byte, s = [137, 80, x, 71, 13, 10, 26, 10] → x ≠ 78 →
      (main env (header_expected ++ rest)).2 = Outcome.done →
      (main env (s ++ rest)).1.filter Event.is_header_mismatch =
        [Event.header_mismatch 3 78 x.val] ∧
      (main env (s ++ rest)).2 = Outcome.done) := by
  have hmain : main env (s ++ rest) =
      (header_check s ++ (main env (header_expected ++ rest)).1,
       (main env (header_expected ++ rest)).2) := by
    rw [main_append env s rest hs, main_append env header_expected rest rfl,
      header_check_expected]
    rfl
  have hfilter : (main env (s ++ rest)).1.filter Event.is_header_mismatch = header_check s := by
    rw [main_append env s rest hs]
    simp only [List.filter_append, filter_header_mismatch_header_check,
      filter_header_mismatch_of_from_loop (chunk_loop_all_from_loop env _ _ _),
      List.append_nil]
  refine ⟨?_, ?_, ?_, hfilter, hmain, ?_⟩
  · unfold header_check
    exact length_filterMap_ite (fun i => s.getD i 0 ≠ header_expected.getD i 0) _ _
  · intro i hi
    unfold header_check
    simp only [List.mem_filterMap, List.mem_range]
    constructor
    · rintro ⟨j, _, hj⟩
      split_ifs at hj with hne
      simp only [Option.some.injEq, Event.header_mismatch.injEq] at hj
      have : j = i := by omega
      subst this
      exact hne
    · intro hne
      exact ⟨i, hi, by rw [if_pos hne]⟩
  · intro e he
    unfold header_check at he
    simp only [List.mem_filterMap, List.mem_range] at he
    obtain ⟨j, hj8, hj⟩ := he
    split_ifs at hj with hne
    simp only [Option.some.injEq] at hj
    exact ⟨j, hj8, hne, hj.symm⟩
  · intro x hx hne hdone
    rw [hfilter, hmain, hx]
    exact ⟨header_check_third x hne, hdone⟩

set_option maxRecDepth 100000 in
/-- C5 on the minimal valid PNG file with its third header byte set to 0. -/
theorem header_check_findings_witness :
    (main ref_env ([137, 80, 0, 71, 13, 10, 26, 10] ++ frames scenario_chunks)).1.filter
        Event.is_header_mismatch = [Event.header_mismatch 3 78 (0 : Byte).val] ∧
    (main ref_env ([137, 80, 0, 71, 13, 10, 26, 10] ++ frames scenario_chunks)).2 =
      Outcome.done :=
  (header_check_findings ref_env [137, 80, 0, 71, 13, 10, 26, 10] (frames scenario_chunks)
    (by decide)).2.2.2.2.2 0 rfl (by decide) (by decide)

/-! ## The IDAT branch on a payload with a stored block -/

theorem ones_complement_eq (len : Nat) (h : len < 2 ^ 16) :
    ((-(len : Int) - 1) % 2 ^ 16).toNat = 65535 - len := by
  omega

theorem be_value_four (a b c d : Byte) :
    be_value [a, b, c, d] = a.val * 2 ^ 24 + b.val * 2 ^ 16 + c.val * 2 ^ 8 + d.val := by
  simp only [be_value, List.foldl]
  omega

theorem swap_le_value_eq_be_value (l : List Byte) (h : l.length = 4) :
    swap_uint32 (le_value l) = be_value l := by
  obtain ⟨a, b, c, d, rfl⟩ := list_length_four l h
  rw [swap_le_value4, be_value_four]

theorem trailer_eq (t0 t1 t2 t3 : Byte) (payload : List Byte) (h : 4 ≤ payload.length) :
    ((t0 :: t1 :: t2 :: t3 :: payload).drop payload.length).take 4 =
      payload.drop (payload.length - 4) := by
  have h1 : (t0 :: t1 :: t2 :: t3 :: payload).drop payload.length =
      payload.drop (payload.length - 4) := by
    have : t0 :: t1 :: t2 :: t3 :: payload = [t0, t1, t2, t3] ++ payload := rfl
    rw [this, List.drop_append_eq_append_drop]
    have h2 : List.drop payload.length [t0, t1, t2, t3] = [] :=
      List.drop_eq_nil_of_le (by simpa using h)
    rw [h2]
    rfl
  rw [h1]
  apply List.take_of_length_le
  simp only [List.length_drop]
  omega

theorem list_length_ge_seven {α : Type} (l : List α) (h : 7 ≤ l.length) :
    ∃ a b c d e f g tl, l = a :: b :: c :: d :: e :: f :: g :: tl := by
  match l, h with
  | a :: b :: c :: d :: e :: f :: g :: tl, _ => exact ⟨a, b, c, d, e, f, g, tl, rfl⟩

theorem idat_branch_head (env : Env) (ihdr : ihdr_t) (t0 t1 t2 t3 p0 p1 p2 : Byte)
    (tl : List Byte) (length : Nat) :
    idat_branch env ihdr (t0 :: t1 :: t2 :: t3 :: p0 :: p1 :: p2 :: tl) length =
      if (p2.val &&& 6) >>> 1 = 0 then
        (idat_head p0 p1 p2 ++
          (stored_block env ihdr (t0 :: t1 :: t2 :: t3 :: p0 :: p1 :: p2 :: tl) length).1,
         (stored_block env ihdr (t0 :: t1 :: t2 :: t3 :: p0 :: p1 :: p2 :: tl) length).2)
      else (idat_head p0 p1 p2, true) := by
  simp only [idat_branch, List.getElem?_cons_succ, List.getElem?_cons_zero, idat_head]

theorem stored_block_eq (env : Env) (ihdr : ihdr_t) (t0 t1 t2 t3 : Byte) (payload : List Byte)
    (h7 : 7 ≤ payload.length) :
    stored_block env ihdr (t0 :: t1 :: t2 :: t3 :: payload) payload.length =
      if 7 + payload_len payload ≤ payload.length then
        (stored_head ihdr (payload_len payload) (payload_nlen payload) ++
          adler_lines (be_value (payload.drop (payload.length - 4)))
            (u32 (env.adler32 ((payload.drop 7).take (payload_len payload)))), true)
      else (stored_head ihdr (payload_len payload) (payload_nlen payload), false) := by
  obtain ⟨p0, p1, p2, p3, p4, p5, p6, tl, rfl⟩ := list_length_ge_seven payload h7
  have htr := trailer_eq t0 t1 t2 t3 (p0 :: p1 :: p2 :: p3 :: p4 :: p5 :: p6 :: tl)
    (by simp only [List.length_cons]; omega)
  have hbe : swap_uint32 (le_value ((p0 :: p1 :: p2 :: p3 :: p4 :: p5 :: p6 :: tl).drop
      ((p0 :: p1 :: p2 :: p3 :: p4 :: p5 :: p6 :: tl).length - 4))) =
      be_value ((p0 :: p1 :: p2 :: p3 :: p4 :: p5 :: p6 :: tl).drop
        ((p0 :: p1 :: p2 :: p3 :: p4 :: p5 :: p6 :: tl).length - 4)) :=
    swap_le_value_eq_be_value _ (by simp only [List.length_drop, List.length_cons]; omega)
  have hlen : (p3.val + 256 * p4.val) < 2 ^ 16 := by omega
  have hc := ones_complement_eq (p3.val + 256 * p4.val) hlen
  have hnl : (65535 - (p3.val + 256 * p4.val) ≠ p5.val + 256 * p6.val) ↔
      (p3.val + 256 * p4.val + (p5.val + 256 * p6.val) ≠ 65535) := by omega
  simp only [stored_block, List.getElem?_cons_succ, List.getElem?_cons_zero, u16_of_bytes,
    payload_len, payload_nlen, List.getD_cons_succ, List.getD_cons_zero, stored_head,
    adler_lines, hc, hnl, htr, hbe, List.drop_succ_cons, List.drop_zero, ne_eq]
  by_cases hb : 7 + (p3.val + 256 * p4.val) ≤ (p0 :: p1 :: p2 :: p3 :: p4 :: p5 :: p6 :: tl).length
  · have hb' : (p0 :: p1 :: p2 :: p3 :: p4 :: p5 :: p6 :: tl).length + 4 ≤
        (t0 :: t1 :: t2 :: t3 :: p0 :: p1 :: p2 :: p3 :: p4 :: p5 :: p6 :: tl).length ∧
        11 + (p3.val + 256 * p4.val) ≤
        (t0 :: t1 :: t2 :: t3 :: p0 :: p1 :: p2 :: p3 :: p4 :: p5 :: p6 :: tl).length := by
      simp only [List.length_cons] at hb ⊢
      omega
    rw [if_pos hb, if_pos hb']
    simp
  · have hb' : ¬ ((p0 :: p1 :: p2 :: p3 :: p4 :: p5 :: p6 :: tl).length + 4 ≤
        (t0 :: t1 :: t2 :: t3 :: p0 :: p1 :: p2 :: p3 :: p4 :: p5 :: p6 :: tl).length ∧
        11 + (p3.val + 256 * p4.val) ≤
        (t0 :: t1 :: t2 :: t3 :: p0 :: p1 :: p2 :: p3 :: p4 :: p5 :: p6 :: tl).length) := by
      simp only [List.length_cons] at hb ⊢
      omega
    rw [if_neg hb, if_neg hb']

theorem idat_branch_stored (env : Env) (ihdr : ihdr_t) (t0 t1 t2 t3 : Byte)
    (payload : List Byte) (h7 : 7 ≤ payload.length) (hbt : payload_btype payload = 0) :
    idat_branch env ihdr (t0 :: t1 :: t2 :: t3 :: payload) payload.length =
      if 7 + payload_len payload ≤ payload.length then
        (idat_head (payload.getD 0 0) (payload.getD 1 0) (payload.getD 2 0) ++
          (stored_head ihdr (payload_len payload) (payload_nlen payload) ++
            adler_lines (be_value (payload.drop (payload.length - 4)))
              (u32 (env.adler32 ((payload.drop 7).take (payload_len payload))))), true)
      else
        (idat_head (payload.getD 0 0) (payload.getD 1 0) (payload.getD 2 0) ++
          stored_head ihdr (payload_len payload) (payload_nlen payload), false) := by
  have hsb := stored_block_eq env ihdr t0 t1 t2 t3 payload h7
  obtain ⟨p0, p1, p2, p3, p4, p5, p6, tl, rfl⟩ := list_length_ge_seven payload h7
  have hbt' : (p2.val &&& 6) >>> 1 = 0 := hbt
  rw [idat_branch_head, if_pos hbt', hsb]
  simp only [List.getD_cons_succ, List.getD_cons_zero]
  split_ifs <;> rfl

theorem filter_idat_head (cmf flg block_format : Byte) (p : Event → Bool)
    (hz : ∀ a b c d e, p (Event.zlib_header a b c d e) = false)
    (hbh : ∀ a b c d e f, p (Event.block_header a b c d e f) = false) :
    (idat_head cmf flg block_format).filter p =
      if (cmf.val * 256 + flg.val) % 31 ≠ 0 then [Event.fcheck_mismatch].filter p else [] := by
  unfold idat_head
  split_ifs <;> simp [List.filter_cons, hz, hbh]

/-! ## C10: LEN and NLEN -/

/-- C10: on an IDAT payload with BTYPE = 0 (and the 7 bytes that hold the zlib
header, the block byte, LEN and NLEN), the branch prints LEN = P[3] + 256*P[4]
and NLEN = P[5] + 256*P[6], and prints the NLEN mismatch line, once, exactly
when LEN + NLEN differs from 65535, that is when NLEN differs from the 16-bit
complement 65535 - LEN. -/
theorem nlen_mismatch_iff (env : Env) (ihdr : ihdr_t) (payload : List Byte)
    (h7 : 7 ≤ payload.length) (hbt : payload_btype payload = 0) :
    Event.len_nlen (payload_len payload) (payload_nlen payload) ∈
      (idat_branch env ihdr (str_IDAT ++ payload) payload.length).1 ∧
    (idat_branch env ihdr (str_IDAT ++ payload) payload.length).1.filter
        Event.is_nlen_mismatch =
      (if payload_len payload + payload_nlen payload ≠ 65535 then
        [Event.nlen_mismatch (65535 - payload_len payload) (payload_nlen payload)] else []) ∧
    (payload_nlen payload ≠ 65535 - payload_len payload ↔
      payload_len payload + payload_nlen payload ≠ 65535) := by
  have hlen : payload_len payload < 65536 := by unfold payload_len; omega
  have hform := idat_branch_stored env ihdr 73 68 65 84 payload h7 hbt
  have hbuf : str_IDAT ++ payload = 73 :: 68 :: 65 :: 84 :: payload := rfl
  rw [hbuf, hform]
  have hhead := filter_idat_head (payload.getD 0 0) (payload.getD 1 0) (payload.getD 2 0)
    Event.is_nlen_mismatch (fun _ _ _ _ _ => rfl) (fun _ _ _ _ _ _ => rfl)
  have hhead' : (idat_head (payload.getD 0 0) (payload.getD 1 0) (payload.getD 2 0)).filter
      Event.is_nlen_mismatch = [] := by
    rw [hhead]; split_ifs <;> rfl
  have hsh : (stored_head ihdr (payload_len payload) (payload_nlen payload)).filter
      Event.is_nlen_mismatch =
      (if payload_len payload + payload_nlen payload ≠ 65535 then
        [Event.nlen_mismatch (65535 - payload_len payload) (payload_nlen payload)] else []) := by
    unfold stored_head
    split_ifs <;> simp [List.filter_cons, Event.is_nlen_mismatch]
  have hal : ∀ a b, (adler_lines a b).filter Event.is_nlen_mismatch = [] := by
    intro a b
    unfold adler_lines
    split_ifs <;> simp [List.filter_cons, Event.is_nlen_mismatch]
  have hmem : Event.len_nlen (payload_len payload) (payload_nlen payload) ∈
      stored_head ihdr (payload_len payload) (payload_nlen payload) := by
    unfold stored_head
    simp
  refine ⟨?_, ?_, by omega⟩
  · split_ifs <;> simp [hmem]
  · split_ifs <;> simp only [List.filter_append, hhead', hsh, hal, List.nil_append,
      List.append_nil, if_pos, if_neg, *] <;> simp_all

/-- C10 on the IDAT payload of the minimal valid PNG file. -/
theorem nlen_mismatch_iff_witness :
    Event.len_nlen (payload_len scenario_idat) (payload_nlen scenario_idat) ∈
      (idat_branch ref_env ref_env.stack_ihdr (str_IDAT ++ scenario_idat)
        scenario_idat.length).1 ∧
    (idat_branch ref_env ref_env.stack_ihdr (str_IDAT ++ scenario_idat)
        scenario_idat.length).1.filter Event.is_nlen_mismatch =
      (if payload_len scenario_idat + payload_nlen scenario_idat ≠ 65535 then
        [Event.nlen_mismatch (65535 - payload_len scenario_idat) (payload_nlen scenario_idat)]
      else []) ∧
    (payload_nlen scenario_idat ≠ 65535 - payload_len scenario_idat ↔
      payload_len scenario_idat + payload_nlen scenario_idat ≠ 65535) :=
  nlen_mismatch_iff ref_env ref_env.stack_ihdr scenario_idat (by decide) (by decide)

/-! ## C9: the Adler-32 check -/

/-- C9: on an IDAT payload `P` with BTYPE = 0 and at least 7 + LEN bytes, the
branch prints as computed checksum the Adler-32 of the LEN bytes `P[7 .. 7+LEN)`
and as stored checksum the big-endian value of the last four bytes of `P`, and
prints `ADLER-32 MISMATCH`, once, exactly when the two differ. -/
theorem adler_mismatch_iff (env : Env) (ihdr : ihdr_t) (payload : List Byte)
    (hbt : payload_btype payload = 0) (hlen : 7 + payload_len payload ≤ payload.length) :
    ((payload.drop 7).take (payload_len payload)).length = payload_len payload ∧
    (payload.drop (payload.length - 4)).length = 4 ∧
    Event.adler_values (be_value (payload.drop (payload.length - 4)))
        (u32 (env.adler32 ((payload.drop 7).take (payload_len payload)))) ∈
      (idat_branch env ihdr (str_IDAT ++ payload) payload.length).1 ∧
    (idat_branch env ihdr (str_IDAT ++ payload) payload.length).1.filter
        Event.is_adler_mismatch =
      (if be_value (payload.drop (payload.length - 4)) ≠
          u32 (env.adler32 ((payload.drop 7).take (payload_len payload)))
        then [Event.adler_mismatch] else []) := by
  have h7 : 7 ≤ payload.length := by omega
  have hform := idat_branch_stored env ihdr 73 68 65 84 payload h7 hbt
  have hbuf : str_IDAT ++ payload = 73 :: 68 :: 65 :: 84 :: payload := rfl
  rw [hbuf, hform, if_pos hlen]
  have hhead := filter_idat_head (payload.getD 0 0) (payload.getD 1 0) (payload.getD 2 0)
    Event.is_adler_mismatch (fun _ _ _ _ _ => rfl) (fun _ _ _ _ _ _ => rfl)
  have hhead' : (idat_head (payload.getD 0 0) (payload.getD 1 0) (payload.getD 2 0)).filter
      Event.is_adler_mismatch = [] := by
    rw [hhead]; split_ifs <;> rfl
  have hsh : (stored_head ihdr (payload_len payload) (payload_nlen payload)).filter
      Event.is_adler_mismatch = [] := by
    unfold stored_head
    split_ifs <;> simp [List.filter_cons, Event.is_adler_mismatch]
  have hal : ∀ a b, (adler_lines a b).filter Event.is_adler_mismatch =
      (if a ≠ b then [Event.adler_mismatch] else []) := by
    intro a b
    unfold adler_lines
    split_ifs <;> simp [List.filter_cons, Event.is_adler_mismatch]
  have hmem : ∀ a b, Event.adler_values a b ∈ adler_lines a b := by
    intro a b
    unfold adler_lines
    simp
  refine ⟨?_, ?_, ?_, ?_⟩
  · simp only [List.length_take, List.length_drop]
    omega
  · simp only [List.length_drop]
    omega
  · simp only [List.mem_append]
    exact Or.inr (Or.inr (hmem _ _))
  · simp only [List.filter_append, hhead', hsh, hal, List.nil_append]

/-- C9 on the IDAT payload of the minimal valid PNG file. -/
theorem adler_mismatch_iff_witness :
    ((scenario_idat.drop 7).take (payload_len scenario_idat)).length =
      payload_len scenario_idat ∧
    (scenario_idat.drop (scenario_idat.length - 4)).length = 4 ∧
    Event.adler_values (be_value (scenario_idat.drop (scenario_idat.length - 4)))
        (u32 (ref_env.adler32 ((scenario_idat.drop 7).take (payload_len scenario_idat)))) ∈
      (idat_branch ref_env ref_env.stack_ihdr (str_IDAT ++ scenario_idat)
        scenario_idat.length).1 ∧
    (idat_branch ref_env ref_env.stack_ihdr (str_IDAT ++ scenario_idat)
        scenario_idat.length).1.filter Event.is_adler_mismatch =
      (if be_value (scenario_idat.drop (scenario_idat.length - 4)) ≠
          u32 (ref_env.adler32 ((scenario_idat.drop 7).take (payload_len scenario_idat)))
        then [Event.adler_mismatch] else []) :=
  adler_mismatch_iff ref_env ref_env.stack_ihdr scenario_idat (by decide) (by decide)

theorem tmod_ne_zero_iff (x m : Int) : Int.tmod x m ≠ 0 ↔ x % m ≠ 0 := by
  rw [ne_eq, ne_eq, ← Int.dvd_iff_tmod_eq_zero, Int.dvd_iff_emod_eq_zero]

theorem int32_of_nat (n : Nat) (h : n < 2 ^ 31) : int32 (n : Int) = n := by
  unfold int32
  omega

theorem expected_samples_eq (ihdr : ihdr_t)
    (hw : ihdr.width * spec_samples ihdr.color_type.val < 2 ^ 31) :
    expected_samples ihdr = ((ihdr.width * spec_samples ihdr.color_type.val : Nat) : Int) := by
  unfold spec_samples at hw ⊢
  unfold expected_samples
  generalize ihdr.width = w at *
  generalize ihdr.color_type.val = ct at *
  have hw0 : int32 (w : Int) = w := int32_of_nat w (by split_ifs at hw <;> omega)
  simp only [hw0]
  split_ifs at hw ⊢
  · have := int32_of_nat (w * 3) hw
    push_cast at this ⊢
    exact this
  · have := int32_of_nat (w * 2) hw
    push_cast at this ⊢
    exact this
  · have := int32_of_nat (w * 4) hw
    push_cast at this ⊢
    exact this
  · simp

theorem row_len_of_samples (n bd : Nat) (hbd : bd ∈ [1, 2, 4, 8, 16])
    (hn : n < 2 ^ 31) (hrow : 1 + (n * bd + 7) / 8 < 2 ^ 31) :
    int32 (int32
      ((if bd = 1 then ((n : Int) >>> (3 : Nat), if Int.tmod n 8 ≠ 0 then (1 : Int) else 0)
        else if bd = 2 then ((n : Int) >>> (2 : Nat), if Int.tmod n 4 ≠ 0 then (1 : Int) else 0)
        else if bd = 4 then ((n : Int) >>> (1 : Nat), if Int.tmod n 2 ≠ 0 then (1 : Int) else 0)
        else if bd = 16 then (int32 ((n : Int) * 2), 0)
        else ((n : Int), 0)).1 +
       (if bd = 1 then ((n : Int) >>> (3 : Nat), if Int.tmod n 8 ≠ 0 then (1 : Int) else 0)
        else if bd = 2 then ((n : Int) >>> (2 : Nat), if Int.tmod n 4 ≠ 0 then (1 : Int) else 0)
        else if bd = 4 then ((n : Int) >>> (1 : Nat), if Int.tmod n 2 ≠ 0 then (1 : Int) else 0)
        else if bd = 16 then (int32 ((n : Int) * 2), 0)
        else ((n : Int), 0)).2) + 1) = ((1 + (n * bd + 7) / 8 : Nat) : Int) := by
  simp only [List.mem_cons, List.mem_singleton, List.not_mem_nil, or_false] at hbd
  rcases hbd with hd | hd | hd | hd | hd <;> subst hd
  · simp only [if_true, tmod_ne_zero_iff, Int.shiftRight_eq_div_pow, int32]
    split_ifs <;> omega
  · simp only [show ¬ (2 = 1) by decide, if_false, if_true, tmod_ne_zero_iff,
      Int.shiftRight_eq_div_pow, int32]
    split_ifs <;> omega
  · simp only [show ¬ (4 = 1) by decide, show ¬ (4 = 2) by decide, if_false, if_true,
      tmod_ne_zero_iff, Int.shiftRight_eq_div_pow, int32]
    split_ifs <;> omega
  · simp only [show ¬ (8 = 1) by decide, show ¬ (8 = 2) by decide, show ¬ (8 = 4) by decide,
      show ¬ (8 = 16) by decide, if_false, int32]
    omega
  · simp only [show ¬ (16 = 1) by decide, show ¬ (16 = 2) by decide,
      show ¬ (16 = 4) by decide, if_false, if_true, int32]
    omega

theorem expected_row_len_eq (ihdr : ihdr_t) (hbd : ihdr.bit_depth.val ∈ [1, 2, 4, 8, 16])
    (hw : ihdr.width * spec_samples ihdr.color_type.val < 2 ^ 31)
    (hrow : 1 + spec_row_bytes ihdr < 2 ^ 31) :
    expected_row_len ihdr = ((1 + spec_row_bytes ihdr : Nat) : Int) := by
  simp only [expected_row_len, expected_samples_eq ihdr hw]
  exact row_len_of_samples _ _ hbd hw hrow

theorem expected_len_eq (ihdr : ihdr_t) (hbd : ihdr.bit_depth.val ∈ [1, 2, 4, 8, 16])
    (hw : ihdr.width * spec_samples ihdr.color_type.val < 2 ^ 31)
    (hrow : 1 + spec_row_bytes ihdr < 2 ^ 31) (htot : spec_expected_len ihdr < 2 ^ 31) :
    expected_len ihdr = (spec_expected_len ihdr : Int) := by
  unfold expected_len
  rw [expected_row_len_eq ihdr hbd hw hrow]
  unfold spec_expected_len at htot ⊢
  have hH : ihdr.height ≤ ihdr.height * (1 + spec_row_bytes ihdr) :=
    Nat.le_mul_of_pos_right _ (by omega)
  have hu : u32 ihdr.height = ihdr.height := u32_of_lt (by omega)
  have hR : ((1 + spec_row_bytes ihdr : Nat) : Int) % 2 ^ 32 = (1 + spec_row_bytes ihdr : Nat) := by
    omega
  rw [hu, hR, mul_comm, ← Nat.cast_mul]
  exact int32_of_nat _ htot

theorem filter_stored_length (env : Env) (ihdr : ihdr_t) (payload : List Byte)
    (h7 : 7 ≤ payload.length) (hbt : payload_btype payload = 0) :
    (idat_branch env ihdr (str_IDAT ++ payload) payload.length).1.filter
        Event.is_stored_length_mismatch =
      (if (payload_len payload : Int) ≠ expected_len ihdr then
        [Event.stored_length_mismatch (payload_len payload) (expected_len ihdr)] else []) := by
  have hform := idat_branch_stored env ihdr 73 68 65 84 payload h7 hbt
  have hbuf : str_IDAT ++ payload = 73 :: 68 :: 65 :: 84 :: payload := rfl
  rw [hbuf, hform]
  have hhead := filter_idat_head (payload.getD 0 0) (payload.getD 1 0) (payload.getD 2 0)
    Event.is_stored_length_mismatch (fun _ _ _ _ _ => rfl) (fun _ _ _ _ _ _ => rfl)
  have hhead' : (idat_head (payload.getD 0 0) (payload.getD 1 0) (payload.getD 2 0)).filter
      Event.is_stored_length_mismatch = [] := by
    rw [hhead]; split_ifs <;> rfl
  have hsh : (stored_head ihdr (payload_len payload) (payload_nlen payload)).filter
      Event.is_stored_length_mismatch =
      (if (payload_len payload : Int) ≠ expected_len ihdr then
        [Event.stored_length_mismatch (payload_len payload) (expected_len ihdr)] else []) := by
    unfold stored_head
    split_ifs <;> simp [List.filter_cons, Event.is_stored_length_mismatch]
  have hal : ∀ a b, (adler_lines a b).filter Event.is_stored_length_mismatch = [] := by
    intro a b
    unfold adler_lines
    split_ifs <;> simp [List.filter_cons, Event.is_stored_length_mismatch]
  split_ifs <;> simp only [List.filter_append, hhead', hsh, hal, List.nil_append,
    List.append_nil, if_pos, if_neg, *] <;> simp_all

/-! ## C8: the expected length of the stored block -/

/-- C8: for a color type in {0,2,3,4,6} with s samples per pixel, a bit depth d
in {1,2,4,8,16}, and width W and height H for which W*s, the row bytes plus one
and the result fit in an `int`, the expected length is H * (1 + ceil(W*s*d/8)),
in particular H * (1 + 3*W) for 8-bit RGB and H * (1 + ceil(W/8)) for 1-bit
grayscale; and on a payload with BTYPE = 0 the stored-length mismatch line is
printed, once, exactly when LEN differs from that value. -/
theorem expected_len_formula (env : Env) (ihdr : ihdr_t) (payload : List Byte)
    (hct : ihdr.color_type.val ∈ [0, 2, 3, 4, 6])
    (hbd : ihdr.bit_depth.val ∈ [1, 2, 4, 8, 16])
    (hw : ihdr.width * spec_samples ihdr.color_type.val < 2 ^ 31)
    (hrow : 1 + spec_row_bytes ihdr < 2 ^ 31) (htot : spec_expected_len ihdr < 2 ^ 31)
    (h7 : 7 ≤ payload.length) (hbt : payload_btype payload = 0) :
    expected_len ihdr = (spec_expected_len ihdr : Int) ∧
    (ihdr.color_type.val = 2 → ihdr.bit_depth.val = 8 →
      expected_len ihdr = ((ihdr.height * (1 + 3 * ihdr.width) : Nat) : Int)) ∧
    (ihdr.color_type.val = 0 → ihdr.bit_depth.val = 1 →
      expected_len ihdr = ((ihdr.height * (1 + (ihdr.width + 7) / 8) : Nat) : Int)) ∧
    (idat_branch env ihdr (str_IDAT ++ payload) payload.length).1.filter
        Event.is_stored_length_mismatch =
      (if payload_len payload ≠ spec_expected_len ihdr then
        [Event.stored_length_mismatch (payload_len payload) (spec_expected_len ihdr)]
      else []) := by
  have _hct := hct
  have he := expected_len_eq ihdr hbd hw hrow htot
  refine ⟨he, ?_, ?_, ?_⟩
  · intro hc hd
    rw [he]
    congr 2
    simp only [spec_expected_len, spec_row_bytes, spec_samples, hc, hd]
    have : (ihdr.width * 3 * 8 + 7) / 8 = 3 * ihdr.width := by omega
    simp [this]
  · intro hc hd
    rw [he]
    simp only [spec_expected_len, spec_row_bytes, spec_samples, hc, hd]
    simp
  · rw [filter_stored_length env ihdr payload h7 hbt, he]
    by_cases hl : payload_len payload = spec_expected_len ihdr
    · simp [hl]
    · have : ¬ ((payload_len payload : Int) = (spec_expected_len ihdr : Int)) := by
        exact_mod_cast hl
      simp [hl, this]

/-- C8 on a 2x3 image, 8-bit RGB (expected length 3 * (1 + 3*2) = 21), on a 9x2
image, 1-bit grayscale (expected length 2 * (1 + 2) = 6), and on the IDAT
payload of the minimal valid PNG file, whose LEN is 2. -/
theorem expected_len_formula_witness :
    expected_len ⟨2, 3, 8, 2, 0, 0, 0⟩ = (spec_expected_len ⟨2, 3, 8, 2, 0, 0, 0⟩ : Int) ∧
    expected_len ⟨2, 3, 8, 2, 0, 0, 0⟩ = ((3 * (1 + 3 * 2) : Nat) : Int) ∧
    expected_len ⟨9, 2, 1, 0, 0, 0, 0⟩ = ((2 * (1 + (9 + 7) / 8) : Nat) : Int) ∧
    (idat_branch ref_env ⟨2, 3, 8, 2, 0, 0, 0⟩ (str_IDAT ++ scenario_idat)
        scenario_idat.length).1.filter Event.is_stored_length_mismatch =
      (if payload_len scenario_idat ≠ spec_expected_len ⟨2, 3, 8, 2, 0, 0, 0⟩ then
        [Event.stored_length_mismatch (payload_len scenario_idat)
          (spec_expected_len ⟨2, 3, 8, 2, 0, 0, 0⟩)]
      else []) :=
  ⟨(expected_len_formula ref_env ⟨2, 3, 8, 2, 0, 0, 0⟩ scenario_idat (by decide) (by decide)
      (by decide) (by decide) (by decide) (by decide) (by decide)).1,
   (expected_len_formula ref_env ⟨2, 3, 8, 2, 0, 0, 0⟩ scenario_idat (by decide) (by decide)
      (by decide) (by decide) (by decide) (by decide) (by decide)).2.1 rfl rfl,
   (expected_len_formula ref_env ⟨9, 2, 1, 0, 0, 0, 0⟩ scenario_idat (by decide) (by decide)
      (by decide) (by decide) (by decide) (by decide) (by decide)).2.2.1 rfl rfl,
   (expected_len_formula ref_env ⟨2, 3, 8, 2, 0, 0, 0⟩ scenario_idat (by decide) (by decide)
      (by decide) (by decide) (by decide) (by decide) (by decide)).2.2.2⟩

/-! ## C7: a stored block built from the expected length -/

theorem be_value_be_bytes32 (n : Nat) : be_value (be_bytes32 n) = u32 n := by
  rw [← swap_le_value_eq_be_value _ (length_be_bytes32 n), swap_le_be_bytes32]

theorem u32_u32 (n : Nat) : u32 (u32 n) = u32 n := by
  unfold u32
  omega

theorem stored_idat_payload_cons (cmf flg block_format : Byte) (len : Nat) (data : List Byte)
    (adler : Nat) :
    stored_idat_payload cmf flg block_format len data adler =
      cmf :: flg :: block_format :: Fin.ofNat len :: Fin.ofNat (len / 2 ^ 8) ::
        Fin.ofNat (65535 - len) :: Fin.ofNat ((65535 - len) / 2 ^ 8) ::
        (data ++ be_bytes32 adler) := by
  simp [stored_idat_payload, le_bytes16]

theorem stored_idat_payload_facts (cmf flg block_format : Byte) (len : Nat) (data : List Byte)
    (adler : Nat) (h16 : len < 2 ^ 16) (hD : data.length = len) :
    (stored_idat_payload cmf flg block_format len data adler).length = 11 + len ∧
    payload_btype (stored_idat_payload cmf flg block_format len data adler) =
      (block_format.val &&& 6) >>> 1 ∧
    payload_len (stored_idat_payload cmf flg block_format len data adler) = len ∧
    payload_nlen (stored_idat_payload cmf flg block_format len data adler) = 65535 - len ∧
    ((stored_idat_payload cmf flg block_format len data adler).drop 7).take len = data ∧
    (stored_idat_payload cmf flg block_format len data adler).drop (11 + len - 4) =
      be_bytes32 adler ∧
    (stored_idat_payload cmf flg block_format len data adler).getD 0 0 = cmf ∧
    (stored_idat_payload cmf flg block_format len data adler).getD 1 0 = flg ∧
    (stored_idat_payload cmf flg block_format len data adler).getD 2 0 = block_format := by
  rw [stored_idat_payload_cons]
  refine ⟨?_, rfl, ?_, ?_, ?_, ?_, rfl, rfl, rfl⟩
  · simp only [List.length_cons, List.length_append, length_be_bytes32, hD]
    omega
  · simp only [payload_len, List.getD_cons_succ, List.getD_cons_zero, fin_ofNat_val]
    omega
  · simp only [payload_nlen, List.getD_cons_succ, List.getD_cons_zero, fin_ofNat_val]
    omega
  · simp only [List.drop_succ_cons, List.drop_zero]
    exact List.take_left' hD
  · have h : 11 + len - 4 = len + 7 := by omega
    rw [h]
    simp only [List.drop_succ_cons]
    exact List.drop_left' hD

theorem filter_finding_idat_head (cmf flg block_format : Byte)
    (hfc : (cmf.val * 256 + flg.val) % 31 = 0) :
    (idat_head cmf flg block_format).filter Event.is_finding = [] := by
  rw [filter_idat_head cmf flg block_format Event.is_finding (fun _ _ _ _ _ => rfl)
    (fun _ _ _ _ _ _ => rfl)]
  simp [hfc]

theorem idat_branch_stored_payload (env : Env) (ihdr : ihdr_t) (cmf flg block_format : Byte)
    (len : Nat) (data : List Byte) (hfc : (cmf.val * 256 + flg.val) % 31 = 0)
    (hbt : (block_format.val &&& 6) >>> 1 = 0) (hlen : expected_len ihdr = (len : Int))
    (h16 : len < 2 ^ 16) (hD : data.length = len) :
    (idat_branch env ihdr
      (str_IDAT ++ stored_idat_payload cmf flg block_format len data (env.adler32 data))
      (stored_idat_payload cmf flg block_format len data (env.adler32 data)).length).2 = true ∧
    (idat_branch env ihdr
      (str_IDAT ++ stored_idat_payload cmf flg block_format len data (env.adler32 data))
      (stored_idat_payload cmf flg block_format len data (env.adler32 data)).length).1.filter
        Event.is_finding = [] := by
  obtain ⟨hl, hb, hpl, hpn, hdata, htrail, h0, h1, h2⟩ :=
    stored_idat_payload_facts cmf flg block_format len data (env.adler32 data) h16 hD
  have hbuf : ∀ p : List Byte, str_IDAT ++ p = 73 :: 68 :: 65 :: 84 :: p := fun _ => rfl
  rw [hbuf, idat_branch_stored env ihdr 73 68 65 84 _ (by omega) (by rw [hb]; exact hbt)]
  rw [hpl, hpn, hl, if_pos (show 7 + len ≤ 11 + len by omega), hdata, htrail,
    be_value_be_bytes32, h0, h1, h2]
  refine ⟨rfl, ?_⟩
  have hsum : len + (65535 - len) = 65535 := by omega
  simp only [List.filter_append, filter_finding_idat_head cmf flg block_format hfc,
    stored_head, adler_lines, hlen, hsum, ne_eq, not_true_eq_false, if_false,
    List.append_nil, List.nil_append]
  rfl

/-- C7: for a header whose expected length `len` fits in 16 bits and `len` data
bytes, the IDAT payload built from a zlib header with (cmf*256+flg) mod 31 = 0,
a block byte with BTYPE = 0, LEN = `len` and its complement, the data and their
Adler-32 passes the IDAT branch with all accesses in bounds and without any
error line. -/
theorem stored_idat_round_trip (env : Env) (ihdr : ihdr_t) (cmf flg block_format : Byte)
    (len : Nat) (data : List Byte) (hfc : (cmf.val * 256 + flg.val) % 31 = 0)
    (hbt : (block_format.val &&& 6) >>> 1 = 0) (hlen : expected_len ihdr = (len : Int))
    (h16 : len < 2 ^ 16) (hD : data.length = len) :
    (idat_branch env ihdr
      (str_IDAT ++ stored_idat_payload cmf flg block_format len data (env.adler32 data))
      (stored_idat_payload cmf flg block_format len data (env.adler32 data)).length).2 = true ∧
    (idat_branch env ihdr
      (str_IDAT ++ stored_idat_payload cmf flg block_format len data (env.adler32 data))
      (stored_idat_payload cmf flg block_format len data (env.adler32 data)).length).1.filter
        Event.is_finding = [] :=
  idat_branch_stored_payload env ihdr cmf flg block_format len data hfc hbt hlen h16 hD

/-- C7 on the header and the stored block of the minimal valid PNG file. -/
theorem stored_idat_round_trip_witness :
    (idat_branch ref_env (decode_ihdr scenario_ihdr)
      (str_IDAT ++ stored_idat_payload 0x78 0x01 1 2 scenario_data
        (ref_env.adler32 scenario_data))
      (stored_idat_payload 0x78 0x01 1 2 scenario_data
        (ref_env.adler32 scenario_data)).length).2 = true ∧
    (idat_branch ref_env (decode_ihdr scenario_ihdr)
      (str_IDAT ++ stored_idat_payload 0x78 0x01 1 2 scenario_data
        (ref_env.adler32 scenario_data))
      (stored_idat_payload 0x78 0x01 1 2 scenario_data
        (ref_env.adler32 scenario_data)).length).1.filter Event.is_finding = [] :=
  stored_idat_round_trip ref_env (decode_ihdr scenario_ihdr) 0x78 0x01 1 2 scenario_data
    (by decide) (by decide) (by decide) (by decide) (by decide)

/-! ## C6: the minimal valid file -/

theorem list_length_thirteen {α : Type} (l : List α) (h : l.length = 13) :
    ∃ a0 a1 a2 a3 a4 a5 a6 a7 a8 a9 a10 a11 a12,
      l = [a0, a1, a2, a3, a4, a5, a6, a7, a8, a9, a10, a11, a12] := by
  match l, h with
  | [a0, a1, a2, a3, a4, a5, a6, a7, a8, a9, a10, a11, a12], _ =>
    exact ⟨a0, a1, a2, a3, a4, a5, a6, a7, a8, a9, a10, a11, a12, rfl⟩

theorem ihdr_branch_thirteen (ihdr : ihdr_t) (t0 t1 t2 t3 : Byte) (payload : List Byte)
    (h13 : payload.length = 13) :
    ihdr_branch ihdr (t0 :: t1 :: t2 :: t3 :: payload) payload.length =
      ([ihdr_line (decode_ihdr payload)], some (decode_ihdr payload)) := by
  obtain ⟨a0, a1, a2, a3, a4, a5, a6, a7, a8, a9, a10, a11, a12, rfl⟩ :=
    list_length_thirteen payload h13
  have hw := swap_le_value_eq_be_value [a0, a1, a2, a3] rfl
  have hh := swap_le_value_eq_be_value [a4, a5, a6, a7] rfl
  simp only [ihdr_branch, sizeof_ihdr, List.length_cons, List.length_nil, memcpy_ihdr,
    ihdr_t.bytes, le_bytes32, ihdr_t.of_bytes, decode_ihdr, ihdr_line]
  simp [hw, hh]

theorem iteration_ihdr (env : Env) (ihdr : ihdr_t) (c : Chunk) (rest : List Byte)
    (hc : c.well_framed) (hty : c.type = str_IHDR) (h13 : c.payload.length = 13) :
    chunk_iteration env ihdr (c.frame ++ rest) =
      Step.next ([c.summary env] ++
        (if c.crc ≠ u32 (env.crc32 (c.type ++ c.payload)) then [Event.crc_mismatch] else []) ++
        [ihdr_line (decode_ihdr c.payload)]) (decode_ihdr c.payload) rest := by
  rw [chunk_iteration_frame env ihdr c rest hc]
  have hbuf : str_IHDR ++ c.payload = 73 :: 72 :: 68 :: 82 :: c.payload := rfl
  rw [hty, hbuf]
  simp only [process_chunk, List.getD_cons_zero, List.getD_cons_succ]
  have e0 : ([73, 72, 68, 82] : List Byte) = str_IHDR := rfl
  rw [if_pos e0, ihdr_branch_thirteen ihdr 73 72 68 82 c.payload h13]
  simp only [Chunk.summary, hty]
  rfl

theorem iteration_idat (env : Env) (ihdr : ihdr_t) (c : Chunk) (rest : List Byte)
    (hc : c.well_framed) (hty : c.type = str_IDAT)
    (hb : (idat_branch env ihdr (str_IDAT ++ c.payload) c.payload.length).2 = true) :
    chunk_iteration env ihdr (c.frame ++ rest) =
      Step.next ([c.summary env] ++
        (if c.crc ≠ u32 (env.crc32 (c.type ++ c.payload)) then [Event.crc_mismatch] else []) ++
        (idat_branch env ihdr (str_IDAT ++ c.payload) c.payload.length).1) ihdr rest := by
  rw [chunk_iteration_frame env ihdr c rest hc]
  have hbuf : str_IDAT ++ c.payload = 73 :: 68 :: 65 :: 84 :: c.payload := rfl
  rw [hbuf] at hb
  rw [hty, hbuf]
  simp only [process_chunk, List.getD_cons_zero, List.getD_cons_succ]
  have e1 : ¬ ([73, 68, 65, 84] : List Byte) = str_IHDR := by decide
  have e0 : ([73, 68, 65, 84] : List Byte) = str_IDAT := rfl
  rw [if_neg e1, if_pos e0]
  rcases hbr : idat_branch env ihdr (73 :: 68 :: 65 :: 84 :: c.payload) c.payload.length with
    ⟨ev1, o⟩
  rw [hbr] at hb
  simp only at hb
  subst hb
  simp only [Chunk.summary, hty]
  rfl

theorem iteration_iend_events (env : Env) (ihdr : ihdr_t) (c : Chunk) (rest : List Byte)
    (hc : c.well_framed) (hty : c.type = str_IEND) :
    chunk_iteration env ihdr (c.frame ++ rest) =
      Step.halt ([c.summary env] ++
        (if c.crc ≠ u32 (env.crc32 (c.type ++ c.payload)) then [Event.crc_mismatch] else []))
        Outcome.done := by
  rw [chunk_iteration_frame env ihdr c rest hc]
  have hbuf : str_IEND ++ c.payload = 73 :: 69 :: 78 :: 68 :: c.payload := rfl
  rw [hty, hbuf]
  simp only [process_chunk, List.getD_cons_zero, List.getD_cons_succ]
  have e1 : ¬ ([73, 69, 78, 68] : List Byte) = str_IHDR := by decide
  have e2 : ¬ ([73, 69, 78, 68] : List Byte) = str_IDAT := by decide
  have e3 : ¬ ([73, 69, 78, 68] : List Byte) ≠ str_IEND := by decide
  rw [if_neg e1, if_neg e2, if_neg e3]
  simp only [Chunk.summary, hty]
  rfl

theorem env_chunk_well_framed (env : Env) (type payload : List Byte) (ht : type.length = 4)
    (hp : payload.length + 4 < 2 ^ 32) : (env_chunk env type payload).well_framed :=
  ⟨ht, hp, u32_lt _⟩

/-- C6: the file made of the expected header, an IHDR chunk with a 13-byte
payload, one IDAT chunk holding a zlib header with (cmf*256+flg) mod 31 = 0 and
one stored block with LEN equal to the expected length of that header (at most
65535), its complement, LEN data bytes and their Adler-32, and an IEND chunk,
each chunk with its CRC-32, is read to its end without any error line. -/
theorem minimal_file_no_findings (env : Env) (ihdr_payload : List Byte)
    (cmf flg block_format : Byte) (len : Nat) (data iend_payload : List Byte)
    (h13 : ihdr_payload.length = 13) (hfc : (cmf.val * 256 + flg.val) % 31 = 0)
    (hbt : (block_format.val &&& 6) >>> 1 = 0)
    (hlen : expected_len (decode_ihdr ihdr_payload) = (len : Int)) (h16 : len ≤ 65535)
    (hD : data.length = len) (hiend : iend_payload.length + 4 < 2 ^ 32) :
    (main env (header_expected ++ frames [env_chunk env str_IHDR ihdr_payload,
      env_chunk env str_IDAT
        (stored_idat_payload cmf flg block_format len data (env.adler32 data)),
      env_chunk env str_IEND iend_payload])).2 = Outcome.done ∧
    (main env (header_expected ++ frames [env_chunk env str_IHDR ihdr_payload,
      env_chunk env str_IDAT
        (stored_idat_payload cmf flg block_format len data (env.adler32 data)),
      env_chunk env str_IEND iend_payload])).1.filter Event.is_finding = [] := by
  have h16' : len < 2 ^ 16 := by omega
  obtain ⟨hb, hf⟩ := idat_branch_stored_payload env (decode_ihdr ihdr_payload) cmf flg
    block_format len data hfc hbt hlen h16' hD
  have hpl := (stored_idat_payload_facts cmf flg block_format len data (env.adler32 data)
    h16' hD).1
  have hc1 := env_chunk_well_framed env str_IHDR ihdr_payload rfl (by omega)
  have hc2 := env_chunk_well_framed env str_IDAT
    (stored_idat_payload cmf flg block_format len data (env.adler32 data)) rfl (by omega)
  have hc3 := env_chunk_well_framed env str_IEND iend_payload rfl hiend
  have h1 := iteration_ihdr env env.stack_ihdr _
    ((env_chunk env str_IDAT
      (stored_idat_payload cmf flg block_format len data (env.adler32 data))).frame ++
      ((env_chunk env str_IEND iend_payload).frame ++ [])) hc1 rfl h13
  have h2 := iteration_idat env (decode_ihdr ihdr_payload) _
    ((env_chunk env str_IEND iend_payload).frame ++ []) hc2 rfl hb
  have h3 := iteration_iend_events env (decode_ihdr ihdr_payload) _ [] hc3 rfl
  have hl1 := chunk_iteration_next_length h1
  have hl2 := chunk_iteration_next_length h2
  rw [main_append env header_expected _ rfl, header_check_expected]
  have hp : ∀ t p, (env_chunk env t p).payload = p := fun _ _ => rfl
  have ht : ∀ t p, (env_chunk env t p).type = t := fun _ _ => rfl
  have hcr : ∀ t p, (env_chunk env t p).crc = u32 (env.crc32 (t ++ p)) := fun _ _ => rfl
  simp only [frames, List.append_nil, hp, ht, hcr, ne_eq, not_true_eq_false, if_false]
    at h1 h2 h3 hl1 hl2 ⊢
  rw [chunk_loop_next (by omega) h1, chunk_loop_next (by omega) h2, chunk_loop_halt h3]
  refine ⟨rfl, ?_⟩
  simp only [List.filter_append, hf, List.append_nil]
  rfl

set_option maxRecDepth 100000 in
/-- C6 on the 1x1 image, 8-bit grayscale, with LEN = 2. -/
theorem minimal_file_no_findings_witness :
    (main ref_env (header_expected ++ frames [env_chunk ref_env str_IHDR scenario_ihdr,
      env_chunk ref_env str_IDAT
        (stored_idat_payload 0x78 0x01 1 2 scenario_data (ref_env.adler32 scenario_data)),
      env_chunk ref_env str_IEND []])).2 = Outcome.done ∧
    (main ref_env (header_expected ++ frames [env_chunk ref_env str_IHDR scenario_ihdr,
      env_chunk ref_env str_IDAT
        (stored_idat_payload 0x78 0x01 1 2 scenario_data (ref_env.adler32 scenario_data)),
      env_chunk ref_env str_IEND []])).1.filter Event.is_finding = [] :=
  minimal_file_no_findings ref_env scenario_ihdr 0x78 0x01 1 2 scenario_data [] (by decide)
    (by decide) (by decide) (by decide) (by decide) (by decide) (by decide)

/-! ## C11: the FCHECK test -/

set_option maxRecDepth 100000 in
theorem flip_bit_mod31 : ∀ (flg : Byte) (k : Fin 8),
    (flg.val ^^^ 2 ^ k.val) % 31 ≠ flg.val % 31 := by
  decide

theorem filter_fcheck_stored_block (env : Env) (ihdr : ihdr_t) (buffer : List Byte)
    (length : Nat) :
    (stored_block env ihdr buffer length).1.filter Event.is_fcheck_mismatch = [] := by
  unfold stored_block
  split
  · dsimp only
    split_ifs <;> simp [List.filter_cons, Event.is_fcheck_mismatch]
  · rfl

theorem filter_fcheck_idat_branch (env : Env) (ihdr : ihdr_t) (t0 t1 t2 t3 cmf flg blk : Byte)
    (tl : List Byte) (length : Nat) :
    (idat_branch env ihdr (t0 :: t1 :: t2 :: t3 :: cmf :: flg :: blk :: tl) length).1.filter
        Event.is_fcheck_mismatch =
      (if (cmf.val * 256 + flg.val) % 31 ≠ 0 then [Event.fcheck_mismatch] else []) := by
  rw [idat_branch_head]
  have hh := filter_idat_head cmf flg blk Event.is_fcheck_mismatch (fun _ _ _ _ _ => rfl)
    (fun _ _ _ _ _ _ => rfl)
  have hs := filter_fcheck_stored_block env ihdr
    (t0 :: t1 :: t2 :: t3 :: cmf :: flg :: blk :: tl) length
  split_ifs at hh ⊢ <;> simp_all [List.filter_append, List.filter_cons, Event.is_fcheck_mismatch]

theorem mem_iff_filter_fcheck (evs : List Event) :
    Event.fcheck_mismatch ∈ evs ↔ evs.filter Event.is_fcheck_mismatch ≠ [] := by
  rw [ne_eq, List.filter_eq_nil_iff]
  constructor
  · intro h hall
    exact hall _ h rfl
  · intro h
    by_contra hmem
    apply h
    intro e he
    cases e <;> simp_all [Event.is_fcheck_mismatch]

theorem fcheck_mismatch_mem_idat_branch (env : Env) (ihdr : ihdr_t) (cmf flg blk : Byte)
    (tl : List Byte) (length : Nat) :
    Event.fcheck_mismatch ∈
        (idat_branch env ihdr (str_IDAT ++ cmf :: flg :: blk :: tl) length).1 ↔
      (cmf.val * 256 + flg.val) % 31 ≠ 0 := by
  have hbuf : str_IDAT ++ cmf :: flg :: blk :: tl =
      73 :: 68 :: 65 :: 84 :: cmf :: flg :: blk :: tl := rfl
  rw [hbuf, mem_iff_filter_fcheck, filter_fcheck_idat_branch]
  split_ifs with h <;> simp_all

/-- C11: on an IDAT payload that holds the zlib header (cmf, flg) and the block
byte, the FCHECK mismatch line is printed exactly when (cmf*256 + flg) mod 31 is
not 0; it is not printed for cmf = 0x78, flg = 0x9C; and when the header passes
the test, the header with any single bit of flg flipped does not. -/
theorem fcheck_mismatch_iff (env : Env) (ihdr : ihdr_t) (cmf flg blk : Byte)
    (tl : List Byte) :
    (Event.fcheck_mismatch ∈
        (idat_branch env ihdr (str_IDAT ++ cmf :: flg :: blk :: tl)
          (cmf :: flg :: blk :: tl).length).1 ↔
      (cmf.val * 256 + flg.val) % 31 ≠ 0) ∧
    Event.fcheck_mismatch ∉
      (idat_branch env ihdr (str_IDAT ++ 0x78 :: 0x9C :: blk :: tl)
        ((0x78 : Byte) :: 0x9C :: blk :: tl).length).1 ∧
    ((cmf.val * 256 + flg.val) % 31 = 0 →
      ∀ (k : Nat) (flipped : Byte), k < 8 → flipped.val = flg.val ^^^ 2 ^ k →
        Event.fcheck_mismatch ∈
          (idat_branch env ihdr (str_IDAT ++ cmf :: flipped :: blk :: tl)
            (cmf :: flipped :: blk :: tl).length).1) := by
  refine ⟨fcheck_mismatch_mem_idat_branch env ihdr cmf flg blk tl _, ?_, ?_⟩
  · rw [fcheck_mismatch_mem_idat_branch]
    decide
  · intro hok k flipped hk hflip
    rw [fcheck_mismatch_mem_idat_branch]
    have := flip_bit_mod31 flg ⟨k, hk⟩
    simp only at this
    rw [← hflip] at this
    omega

/-- C11 on the header 78 9C of the zlib default and the flip of bit 3 of FLG. -/
theorem fcheck_mismatch_iff_witness :
    Event.fcheck_mismatch ∈
      (idat_branch ref_env ref_env.stack_ihdr (str_IDAT ++ 0x78 :: 0x94 :: 1 :: [])
        ((0x78 : Byte) :: 0x94 :: 1 :: []).length).1 :=
  (fcheck_mismatch_iff ref_env ref_env.stack_ihdr 0x78 0x9C 1 []).2.2 (by decide) 3 0x94
    (by decide) (by decide)

/-! ## C12: the fields of the zlib header and of the block byte -/

set_option maxRecDepth 100000 in
theorem byte_bit_fields : ∀ b : Byte,
    (b.val &&& 240) >>> 4 = b.val >>> 4 ∧
    (b.val &&& 32) >>> 5 = (b.val >>> 5) &&& 1 ∧
    (b.val &&& 129) >>> 6 = 2 * (b.val >>> 7) ∧
    (b.val &&& 6) >>> 1 = (b.val >>> 1) &&& 3 ∧
    ((b.val >>> 6) &&& 3 = 2 * (b.val >>> 7) + ((b.val >>> 6) &&& 1)) := by
  decide

theorem mem_idat_head_zlib (cmf flg blk : Byte) :
    Event.zlib_header cmf.val (cmf.val &&& 15) (cmf.val >>> 4) flg.val (flg.val &&& 31) ∈
      idat_head cmf flg blk := by
  unfold idat_head
  rw [(byte_bit_fields cmf).1]
  simp

theorem mem_idat_head_block (cmf flg blk : Byte) :
    Event.block_header ((flg.val >>> 5) &&& 1) (2 * (flg.val >>> 7)) blk.val (blk.val &&& 7)
        (blk.val &&& 1) ((blk.val >>> 1) &&& 3) ∈ idat_head cmf flg blk := by
  unfold idat_head
  rw [(byte_bit_fields flg).2.1, (byte_bit_fields flg).2.2.1, (byte_bit_fields blk).2.2.2.1]
  simp

theorem idat_head_subset (env : Env) (ihdr : ihdr_t) (cmf flg blk : Byte) (tl : List Byte)
    (length : Nat) (e : Event) (he : e ∈ idat_head cmf flg blk) :
    e ∈ (idat_branch env ihdr (str_IDAT ++ cmf :: flg :: blk :: tl) length).1 := by
  have hbuf : str_IDAT ++ cmf :: flg :: blk :: tl =
      73 :: 68 :: 65 :: 84 :: cmf :: flg :: blk :: tl := rfl
  rw [hbuf, idat_branch_head]
  split_ifs
  · exact List.mem_append_left _ he
  · exact he

set_option maxRecDepth 100000 in
/-- C12, the code on every IDAT payload that holds the zlib header and the block
byte: the printed compression method, compression info, FCHECK, FDICT, BFINAL
and BTYPE are the fields the claim names, but the printed FLEVEL is
`(flg & 129) >> 6`, that is twice bit 7 of FLG: bit 6 is dropped. On the zlib
header 78 DA (FLEVEL 3) followed by the block byte 05 (final block, dynamic
Huffman) the program prints FLEVEL=2, on 78 5E (FLEVEL 1) it prints FLEVEL=0. -/
theorem flevel_drops_bit_six :
    (∀ (env : Env) (ihdr : ihdr_t) (cmf flg blk : Byte) (tl : List Byte) (length : Nat),
      Event.zlib_header cmf.val (cmf.val &&& 15) (cmf.val >>> 4) flg.val (flg.val &&& 31) ∈
        (idat_branch env ihdr (str_IDAT ++ cmf :: flg :: blk :: tl) length).1 ∧
      Event.block_header ((flg.val >>> 5) &&& 1) (2 * (flg.val >>> 7)) blk.val
          (blk.val &&& 7) (blk.val &&& 1) ((blk.val >>> 1) &&& 3) ∈
        (idat_branch env ihdr (str_IDAT ++ cmf :: flg :: blk :: tl) length).1) ∧
    (∀ flg : Byte, (flg.val >>> 6) &&& 3 = 2 * (flg.val >>> 7) + ((flg.val >>> 6) &&& 1)) ∧
    idat_branch ref_env ref_env.stack_ihdr (str_IDAT ++ [0x78, 0xDA, 5]) 3 =
      ([Event.zlib_header 120 8 7 218 26, Event.block_header 0 2 5 5 1 2], true) ∧
    ((0xDA : Nat) >>> 6) &&& 3 = 3 ∧
    idat_branch ref_env ref_env.stack_ihdr (str_IDAT ++ [0x78, 0x5E, 5]) 3 =
      ([Event.zlib_header 120 8 7 94 30, Event.block_header 0 0 5 5 1 2], true) ∧
    ((0x5E : Nat) >>> 6) &&& 3 = 1 := by
  refine ⟨fun env ihdr cmf flg blk tl length =>
    ⟨idat_head_subset env ihdr cmf flg blk tl length _ (mem_idat_head_zlib cmf flg blk),
     idat_head_subset env ihdr cmf flg blk tl length _ (mem_idat_head_block cmf flg blk)⟩,
    fun flg => (byte_bit_fields flg).2.2.2.2, ?_, ?_, ?_, ?_⟩ <;> decide

/-! ## C13: the IHDR decoder -/

theorem decode_ihdr_fields (payload : List Byte) (h13 : payload.length = 13) :
    (decode_ihdr payload).width =
      (payload.getD 0 0).val * 2 ^ 24 + (payload.getD 1 0).val * 2 ^ 16 +
        (payload.getD 2 0).val * 2 ^ 8 + (payload.getD 3 0).val ∧
    (decode_ihdr payload).height =
      (payload.getD 4 0).val * 2 ^ 24 + (payload.getD 5 0).val * 2 ^ 16 +
        (payload.getD 6 0).val * 2 ^ 8 + (payload.getD 7 0).val := by
  obtain ⟨a0, a1, a2, a3, a4, a5, a6, a7, a8, a9, a10, a11, a12, rfl⟩ :=
    list_length_thirteen payload h13
  exact ⟨be_value_four a0 a1 a2 a3, be_value_four a4 a5 a6 a7⟩

/-- C13: the iteration on an IHDR chunk with a 13-byte payload `P` retains, and
prints, the header whose width and height are the big-endian values of
`P[0..4)` and `P[4..8)` and whose five other fields are the bytes `P[8]` to
`P[12]`, whatever these values are and whatever the header held before. -/
theorem ihdr_decoded (env : Env) (ihdr : ihdr_t) (c : Chunk) (rest : List Byte)
    (hc : c.well_framed) (hty : c.type = str_IHDR) (h13 : c.payload.length = 13) :
    ihdr_branch ihdr (str_IHDR ++ c.payload) c.payload.length =
      ([ihdr_line (decode_ihdr c.payload)], some (decode_ihdr c.payload)) ∧
    (∃ ev, chunk_iteration env ihdr (c.frame ++ rest) =
        Step.next ev (decode_ihdr c.payload) rest ∧
      ihdr_line (decode_ihdr c.payload) ∈ ev) ∧
    (decode_ihdr c.payload).width =
      (c.payload.getD 0 0).val * 2 ^ 24 + (c.payload.getD 1 0).val * 2 ^ 16 +
        (c.payload.getD 2 0).val * 2 ^ 8 + (c.payload.getD 3 0).val ∧
    (decode_ihdr c.payload).height =
      (c.payload.getD 4 0).val * 2 ^ 24 + (c.payload.getD 5 0).val * 2 ^ 16 +
        (c.payload.getD 6 0).val * 2 ^ 8 + (c.payload.getD 7 0).val ∧
    (decode_ihdr c.payload).bit_depth = c.payload.getD 8 0 ∧
    (decode_ihdr c.payload).color_type = c.payload.getD 9 0 ∧
    (decode_ihdr c.payload).comp_method = c.payload.getD 10 0 ∧
    (decode_ihdr c.payload).filter_method = c.payload.getD 11 0 ∧
    (decode_ihdr c.payload).interlace_method = c.payload.getD 12 0 := by
  refine ⟨ihdr_branch_thirteen ihdr 73 72 68 82 c.payload h13, ?_,
    (decode_ihdr_fields c.payload h13).1, (decode_ihdr_fields c.payload h13).2,
    rfl, rfl, rfl, rfl, rfl⟩
  exact ⟨_, iteration_ihdr env ihdr c rest hc hty h13, by simp⟩

set_option maxRecDepth 100000 in
/-- C13 on an IHDR chunk of a 258x3 image with bit depth 16, color type 6 and
interlace method 1, read after the header of the 1x1 image. -/
theorem ihdr_decoded_witness :
    ihdr_branch (decode_ihdr scenario_ihdr)
        (str_IHDR ++ [0, 0, 1, 2, 0, 0, 0, 3, 16, 6, 0, 0, 1]) 13 =
      ([Event.ihdr_fields 258 3 16 6 0 0 1], some ⟨258, 3, 16, 6, 0, 0, 1⟩) :=
  (ihdr_decoded ref_env (decode_ihdr scenario_ihdr)
    (mk_chunk str_IHDR [0, 0, 1, 2, 0, 0, 0, 3, 16, 6, 0, 0, 1]) [] (by decide) rfl rfl).1

/-! ## C14: blocks that are not stored -/

theorem idat_branch_not_stored (env : Env) (ihdr : ihdr_t) (cmf flg blk : Byte)
    (tl : List Byte) (length : Nat) (hbt : payload_btype (cmf :: flg :: blk :: tl) ≠ 0) :
    idat_branch env ihdr (str_IDAT ++ cmf :: flg :: blk :: tl) length =
      (idat_head cmf flg blk, true) := by
  have hbuf : str_IDAT ++ cmf :: flg :: blk :: tl =
      73 :: 68 :: 65 :: 84 :: cmf :: flg :: blk :: tl := rfl
  have hbt' : ¬ (blk.val &&& 6) >>> 1 = 0 := hbt
  rw [hbuf, idat_branch_head, if_neg hbt']

/-- C14: on an IDAT payload whose block byte has BTYPE 1, 2 or 3, the branch
prints the zlib header and block header lines only, with all accesses in
bounds: no NLEN, stored-length or Adler-32 mismatch line, whatever the rest of
the payload, the declared length and the retained header are; the only error
line it can print is the FCHECK mismatch. -/
theorem btype_not_stored (env : Env) (ihdr : ihdr_t) (cmf flg blk : Byte) (tl : List Byte)
    (length : Nat) (hbt : payload_btype (cmf :: flg :: blk :: tl) ∈ [1, 2, 3]) :
    (idat_branch env ihdr (str_IDAT ++ cmf :: flg :: blk :: tl) length).2 = true ∧
    (idat_branch env ihdr (str_IDAT ++ cmf :: flg :: blk :: tl) length).1.filter
        Event.is_finding =
      (if (cmf.val * 256 + flg.val) % 31 ≠ 0 then [Event.fcheck_mismatch] else []) ∧
    (idat_branch env ihdr (str_IDAT ++ cmf :: flg :: blk :: tl) length).1.filter
        Event.is_nlen_mismatch = [] ∧
    (idat_branch env ihdr (str_IDAT ++ cmf :: flg :: blk :: tl) length).1.filter
        Event.is_stored_length_mismatch = [] ∧
    (idat_branch env ihdr (str_IDAT ++ cmf :: flg :: blk :: tl) length).1.filter
        Event.is_adler_mismatch = [] ∧
    (∀ (env' : Env) (ihdr' : ihdr_t) (tl' : List Byte) (length' : Nat),
      idat_branch env' ihdr' (str_IDAT ++ cmf :: flg :: blk :: tl') length' =
        idat_branch env ihdr (str_IDAT ++ cmf :: flg :: blk :: tl) length) := by
  have hne : payload_btype (cmf :: flg :: blk :: tl) ≠ 0 := by
    intro h0
    rw [h0] at hbt
    simp at hbt
  have hform := idat_branch_not_stored env ihdr cmf flg blk tl length hne
  rw [hform]
  have hf : ∀ p : Event → Bool, (∀ a b c d e, p (Event.zlib_header a b c d e) = false) →
      (∀ a b c d e f, p (Event.block_header a b c d e f) = false) →
      p Event.fcheck_mismatch = false → (idat_head cmf flg blk).filter p = [] := by
    intro p hz hb hfc
    rw [filter_idat_head cmf flg blk p hz hb]
    split_ifs <;> simp [List.filter_cons, hfc]
  refine ⟨rfl, ?_, hf _ (fun _ _ _ _ _ => rfl) (fun _ _ _ _ _ _ => rfl) rfl,
    hf _ (fun _ _ _ _ _ => rfl) (fun _ _ _ _ _ _ => rfl) rfl,
    hf _ (fun _ _ _ _ _ => rfl) (fun _ _ _ _ _ _ => rfl) rfl, ?_⟩
  · rw [filter_idat_head cmf flg blk Event.is_finding (fun _ _ _ _ _ => rfl)
      (fun _ _ _ _ _ _ => rfl)]
    split_ifs <;> rfl
  · intro env' ihdr' tl' length'
    exact idat_branch_not_stored env' ihdr' cmf flg blk tl' length' hne

/-- C14 on a payload with the zlib header 78 DA and a final dynamic Huffman
block, checked against a 2x3 RGB header. -/
theorem btype_not_stored_witness :
    (idat_branch ref_env ⟨2, 3, 8, 2, 0, 0, 0⟩ (str_IDAT ++ 0x78 :: 0xDA :: 5 :: [1, 2, 3])
      6).1.filter Event.is_finding =
      (if ((0x78 : Byte).val * 256 + (0xDA : Byte).val) % 31 ≠ 0 then [Event.fcheck_mismatch]
        else []) :=
  (btype_not_stored ref_env ⟨2, 3, 8, 2, 0, 0, 0⟩ 0x78 0xDA 5 [1, 2, 3] 6 (by decide)).2.1

/-! ## C15: the retained header -/

theorem process_chunk_next_header {env : Env} {ihdr h : ihdr_t} {buffer : List Byte}
    {length crc_file : Nat} {file3 rest : List Byte} {ev : List Event}
    (hstep : process_chunk env ihdr buffer length crc_file file3 = Step.next ev h rest) :
    h = ihdr ∨ (chunk_tag env buffer = str_IHDR ∧ ev.filter Event.is_ihdr_fields ≠ []) := by
  rcases process_chunk_cases env ihdr buffer length crc_file with
    ⟨bev, h', heq, -, -, hh⟩ | ⟨heq, -⟩
  · rw [heq file3] at hstep
    simp only [Step.next.injEq] at hstep
    obtain ⟨hev, hh', -⟩ := hstep
    subst hh'
    rcases hh with hh | ⟨htg, hf⟩
    · exact Or.inl hh
    · refine Or.inr ⟨htg, ?_⟩
      rw [← hev, List.filter_append]
      intro hnil
      exact hf (List.append_eq_nil.mp hnil).2
  · rw [heq file3] at hstep
    simp at hstep

theorem chunk_iteration_next_header {env : Env} {ihdr h : ihdr_t} {file rest : List Byte}
    {ev : List Event} (hstep : chunk_iteration env ihdr file = Step.next ev h rest) :
    h = ihdr ∨ ev.filter Event.is_ihdr_fields ≠ [] := by
  unfold chunk_iteration at hstep
  split_ifs at hstep with h4
  simp only at hstep
  rcases process_chunk_next_header hstep with h1 | h1
  · exact Or.inl h1
  · exact Or.inr h1.2

theorem reaches_header {env : Env} {ihdr ihdr' : ihdr_t} {file file' : List Byte}
    {evs : List Event} (hr : Reaches env ihdr file evs ihdr' file')
    (hno : evs.filter Event.is_ihdr_fields = []) : ihdr' = ihdr := by
  induction hr with
  | refl ihdr file => rfl
  | step hstep _ ih =>
    rw [List.filter_append] at hno
    obtain ⟨h1, h2⟩ := List.append_eq_nil.mp hno
    rcases chunk_iteration_next_header hstep with hh | hh
    · rw [ih h2, hh]
    · exact absurd h1 hh

theorem iteration_other_header {env : Env} {ihdr h : ihdr_t} {c : Chunk}
    {rest rest' : List Byte} {ev : List Event} (hc : c.well_framed) (hty : c.type ≠ str_IHDR)
    (hstep : chunk_iteration env ihdr (c.frame ++ rest) = Step.next ev h rest') :
    h = ihdr := by
  rw [chunk_iteration_frame env ihdr c rest hc] at hstep
  rcases process_chunk_next_header hstep with h1 | h1
  · exact h1
  · exfalso
    apply hty
    rw [← h1.1]
    exact (chunk_tag_frame env c hc).symm

/-- C15 (amended): a chunk whose type tag is not IHDR leaves the retained header
as it is, and so does any sequence of iterations that prints no IHDR fields; a
chunk tagged IHDR with a 13-byte payload, also a later one, replaces the seven
fields by its own values. Every IDAT check therefore uses the most recently
decoded IHDR. -/
theorem header_replaced_by_ihdr_only (env : Env) (ihdr : ihdr_t) (c : Chunk)
    (rest : List Byte) (hc : c.well_framed) :
    (c.type ≠ str_IHDR → ∀ ev h rest',
      chunk_iteration env ihdr (c.frame ++ rest) = Step.next ev h rest' → h = ihdr) ∧
    (∀ file evs h file', Reaches env ihdr file evs h file' →
      evs.filter Event.is_ihdr_fields = [] → h = ihdr) ∧
    (c.type = str_IHDR → c.payload.length = 13 →
      ∃ ev, chunk_iteration env ihdr (c.frame ++ rest) =
        Step.next ev (decode_ihdr c.payload) rest) := by
  refine ⟨fun hty ev h rest' hstep => iteration_other_header hc hty hstep,
    fun file evs h file' hr hno => reaches_header hr hno,
    fun hty h13 => ⟨_, iteration_ihdr env ihdr c rest hc hty h13⟩⟩

set_option maxRecDepth 100000 in
/-- C15 (amended) on the IDAT chunk of the minimal valid PNG file, read with the
header of the 1x1 image retained, and on a second IHDR chunk. -/
theorem header_replaced_by_ihdr_only_witness :
    (⟨1, 1, 8, 0, 0, 0, 0⟩ : ihdr_t) = decode_ihdr scenario_ihdr ∧
    ∃ ev, chunk_iteration ref_env (decode_ihdr scenario_ihdr)
        ((mk_chunk str_IHDR [0, 0, 1, 2, 0, 0, 0, 3, 16, 6, 0, 0, 1]).frame ++ []) =
      Step.next ev (decode_ihdr [0, 0, 1, 2, 0, 0, 0, 3, 16, 6, 0, 0, 1]) [] :=
  ⟨(header_replaced_by_ihdr_only ref_env (decode_ihdr scenario_ihdr)
      (mk_chunk str_IDAT scenario_idat) [] (by decide)).1 (by decide)
      [Event.chunk_summary str_IDAT 0 0 0 0 13 1619464885 1619464885,
        Event.zlib_header 120 8 7 1 1, Event.block_header 0 0 1 1 1 0,
        Event.len_nlen 2 65533, Event.adler_values 16843008 16843008]
      ⟨1, 1, 8, 0, 0, 0, 0⟩ [] (by decide),
   (header_replaced_by_ihdr_only ref_env (decode_ihdr scenario_ihdr)
      (mk_chunk str_IHDR [0, 0, 1, 2, 0, 0, 0, 3, 16, 6, 0, 0, 1]) [] (by decide)).2.2
      rfl rfl⟩

set_option maxRecDepth 100000 in
/-- C15 as stated fails: in the minimal valid PNG file with a second IHDR chunk
(258x3, bit depth 16, color type 6) put after the first, the second chunk
replaces the retained header, and the IDAT chunk, which matches the first
header, is checked against the second: expected length 6195 instead of 2. -/
theorem header_replaced_by_ihdr_only_counterexample :
    main ref_env (header_expected ++ frames [mk_chunk str_IHDR scenario_ihdr,
      mk_chunk str_IHDR [0, 0, 1, 2, 0, 0, 0, 3, 16, 6, 0, 0, 1],
      mk_chunk str_IDAT scenario_idat, mk_chunk str_IEND []]) =
    ([Event.chunk_summary str_IHDR 0 0 0 0 13 981375829 981375829,
      Event.ihdr_fields 1 1 8 0 0 0 0,
      Event.chunk_summary str_IHDR 0 0 0 0 13 1609821588 1609821588,
      Event.ihdr_fields 258 3 16 6 0 0 1,
      Event.chunk_summary str_IDAT 0 0 0 0 13 1619464885 1619464885,
      Event.zlib_header 120 8 7 1 1, Event.block_header 0 0 1 1 1 0,
      Event.len_nlen 2 65533, Event.stored_length_mismatch 2 6195,
      Event.adler_values 16843008 16843008,
      Event.chunk_summary str_IEND 0 0 0 0 0 2923585666 2923585666], Outcome.done) ∧
    chunk_iteration ref_env (decode_ihdr scenario_ihdr)
      ((mk_chunk str_IHDR [0, 0, 1, 2, 0, 0, 0, 3, 16, 6, 0, 0, 1]).frame) =
    Step.next [Event.chunk_summary str_IHDR 0 0 0 0 13 1609821588 1609821588,
      Event.ihdr_fields 258 3 16 6 0 0 1] ⟨258, 3, 16, 6, 0, 0, 1⟩ [] := by
  decide

/-! ## C16: the exit status -/

theorem process_chunk_halt_outcome {env : Env} {ihdr : ihdr_t} {buffer : List Byte}
    {length crc_file : Nat} {file3 : List Byte} {ev : List Event} {o : Outcome}
    (hstep : process_chunk env ihdr buffer length crc_file file3 = Step.halt ev o) :
    o = Outcome.done := by
  rcases process_chunk_cases env ihdr buffer length crc_file with
    ⟨bev, h', heq, -⟩ | ⟨heq, -⟩
  · rw [heq file3] at hstep
    simp at hstep
  · rw [heq file3] at hstep
    simp only [Step.halt.injEq] at hstep
    exact hstep.2.symm

theorem chunk_iteration_halt_cases {env : Env} {ihdr : ihdr_t} {file : List Byte}
    {ev : List Event} {o : Outcome} (hstep : chunk_iteration env ihdr file = Step.halt ev o) :
    (file.length < 4 ∧ ev = [Event.premature_eof] ∧ o = Outcome.aborted) ∨
    (4 ≤ file.length ∧ ev.all Event.from_chunk = true ∧ o = Outcome.done) := by
  by_cases h4 : file.length < 4
  · rw [chunk_iteration_short h4] at hstep
    simp only [Step.halt.injEq] at hstep
    exact Or.inl ⟨h4, hstep.1.symm, hstep.2.symm⟩
  · right
    unfold chunk_iteration at hstep
    rw [if_neg h4] at hstep
    simp only at hstep
    have hall := process_chunk_all_from_chunk env ihdr
      ((file.drop 4).take (u32 (swap_uint32 (le_value (file.take 4)) + 4)) ++
        (List.range (u32 (swap_uint32 (le_value (file.take 4)) + 4) - (file.drop 4).length)).map
          (fun i => env.heap ((file.drop 4).length + i)))
      (swap_uint32 (le_value (file.take 4)))
      (swap_uint32 (le_value
        (((file.drop 4).drop (u32 (swap_uint32 (le_value (file.take 4)) + 4))).take 4)))
      (((file.drop 4).drop (u32 (swap_uint32 (le_value (file.take 4)) + 4))).drop 4)
    rw [hstep] at hall
    exact ⟨by omega, hall, process_chunk_halt_outcome hstep⟩

theorem not_mem_eof_of_all_from_chunk {evs : List Event}
    (h : evs.all Event.from_chunk = true) : Event.premature_eof ∉ evs := by
  intro hmem
  have := List.all_eq_true.mp h _ hmem
  exact Bool.false_ne_true this

theorem chunk_loop_aborted_iff (env : Env) (fuel : Nat) :
    ∀ (ihdr : ihdr_t) (file : List Byte),
      (chunk_loop env fuel ihdr file).2 = Outcome.aborted ↔
        Event.premature_eof ∈ (chunk_loop env fuel ihdr file).1 := by
  induction fuel with
  | zero =>
    intro _ _
    simp [chunk_loop]
  | succ n ih =>
    intro ihdr file
    simp only [chunk_loop]
    cases hstep : chunk_iteration env ihdr file with
    | halt ev o =>
      simp only
      rcases chunk_iteration_halt_cases hstep with ⟨_, hev, ho⟩ | ⟨_, hall, ho⟩
      · subst hev
        subst ho
        simp
      · have hn := not_mem_eof_of_all_from_chunk hall
        subst ho
        simp [hn]
    | next ev h rest =>
      simp only
      have hn := not_mem_eof_of_all_from_chunk (chunk_iteration_next_all hstep)
      rw [ih h rest, List.mem_append]
      constructor
      · exact fun hm => Or.inr hm
      · rintro (hm | hm)
        · exact absurd hm hn
        · exact hm

theorem main_aborted_iff (env : Env) (file : List Byte) :
    (main env file).2 = Outcome.aborted ↔ Event.premature_eof ∈ (main env file).1 := by
  rw [main_eq]
  simp only [List.mem_append]
  rw [chunk_loop_aborted_iff]
  constructor
  · exact fun hm => Or.inr hm
  · rintro (hm | hm)
    · have := List.all_eq_true.mp (header_check_all _) _ hm
      exact absurd this Bool.false_ne_true
    · exact hm

/-- C16 (amended): a run that leaves the loop after an IEND chunk has exit status
0 whatever error lines it printed; the exit status is 1 exactly when the run
printed the premature end of file. -/
theorem exit_status_of_run (env : Env) (file : List Byte) :
    ((main env file).2 = Outcome.done → exit_status (main env file).2 = some 0) ∧
    (exit_status (main env file).2 = some 1 ↔ Event.premature_eof ∈ (main env file).1) ∧
    (exit_status (main env file).2 = some 0 → Event.premature_eof ∉ (main env file).1) := by
  have hiff := main_aborted_iff env file
  refine ⟨fun h => by rw [h]; rfl, ?_, ?_⟩
  · rw [← hiff]
    cases h : (main env file).2 <;> simp [exit_status]
  · rw [← hiff]
    cases h : (main env file).2 <;> simp [exit_status]

set_option maxRecDepth 100000 in
/-- C16 (amended) on the minimal valid PNG file with its third header byte set to
0: the run ends after IEND, so the exit status is 0. -/
theorem exit_status_of_run_witness :
    exit_status (main ref_env ([137, 80, 0, 71, 13, 10, 26, 10] ++ frames scenario_chunks)).2 =
      some 0 :=
  (exit_status_of_run ref_env ([137, 80, 0, 71, 13, 10, 26, 10] ++ frames scenario_chunks)).1
    (by decide)

set_option maxRecDepth 100000 in
/-- C16 as stated fails: the minimal valid PNG file with an IDAT chunk whose
stored CRC is 0 is read to its IEND chunk, the run prints `CRC MISMATCH`, and
the exit status is 0. -/
theorem exit_status_of_run_counterexample :
    (main ref_env (header_expected ++ frames [mk_chunk str_IHDR scenario_ihdr,
      { type := str_IDAT, payload := scenario_idat, crc := 0 },
      mk_chunk str_IEND []])).1.filter Event.is_finding = [Event.crc_mismatch] ∧
    (main ref_env (header_expected ++ frames [mk_chunk str_IHDR scenario_ihdr,
      { type := str_IDAT, payload := scenario_idat, crc := 0 },
      mk_chunk str_IEND []])).2 = Outcome.done ∧
    exit_status (main ref_env (header_expected ++ frames [mk_chunk str_IHDR scenario_ihdr,
      { type := str_IDAT, payload := scenario_idat, crc := 0 },
      mk_chunk str_IEND []])).2 = some 0 := by
  decide

/-! ## C17: termination of the chunk loop -/

theorem loop_to_short_tail (env : Env) (tail : List Byte) (htail : tail.length < 4) :
    ∀ (pre : List Chunk) (ihdr : ihdr_t) (fuel : Nat),
      (∀ c ∈ pre, c.well_framed ∧ c.type ≠ str_IEND) →
      (frames pre ++ tail).length < fuel →
      (chunk_loop env fuel ihdr (frames pre ++ tail)).2 = Outcome.aborted := by
  intro pre
  induction pre with
  | nil =>
    intro ihdr fuel _ hfuel
    cases fuel with
    | zero => omega
    | succ n =>
      have h : frames [] ++ tail = tail := rfl
      rw [h, chunk_loop_short n htail]
  | cons c pre ih =>
    intro ihdr fuel hpre hfuel
    obtain ⟨hc, hne⟩ := hpre c (List.mem_cons_self _ _)
    obtain ⟨ev, h, hev⟩ := iteration_continues env ihdr c hc hne
    rw [frames_cons_append] at hfuel ⊢
    have hstep := hev (frames pre ++ tail)
    have hl := chunk_iteration_next_length hstep
    rw [chunk_loop_next hfuel hstep]
    exact ih h fuel (fun c' hc' => hpre c' (List.mem_cons_of_mem _ hc')) (by omega)

/-- A file whose framed chunks hold no IEND chunk and that ends with fewer than 4
bytes after them is read to that point whatever the chunks hold, and the run
ends with `return 1`. -/
theorem run_to_short_tail (env : Env) (sig : List Byte) (pre : List Chunk) (tail : List Byte)
    (hsig : sig.length = 8) (hpre : ∀ c ∈ pre, c.well_framed ∧ c.type ≠ str_IEND)
    (htail : tail.length < 4) :
    (main env (sig ++ (frames pre ++ tail))).2 = Outcome.aborted := by
  rw [main_append env sig _ hsig]
  exact loop_to_short_tail env tail htail pre env.stack_ihdr _ hpre (by omega)

set_option maxRecDepth 100000 in
/-- The file made of the header and an IDAT chunk whose payload is the two bytes
78 9C: the block byte `buffer[6]` is read past the buffer of 6 bytes, the
program goes on and finds the end of the file where the next chunk length is
expected. -/
theorem short_idat_run :
    (main ref_env (header_expected ++ (frames [mk_chunk str_IDAT [0x78, 0x9C]] ++ []))).2 =
      Outcome.aborted :=
  run_to_short_tail ref_env header_expected [mk_chunk str_IDAT [0x78, 0x9C]] [] (by decide)
    (by decide) (by decide)

theorem list_length_ge_three {α : Type} (l : List α) (h : 3 ≤ l.length) :
    ∃ a b c tl, l = a :: b :: c :: tl := by
  match l, h with
  | a :: b :: c :: tl, _ => exact ⟨a, b, c, tl, rfl⟩

theorem idat_branch_short (env : Env) (ihdr : ihdr_t) (t0 t1 t2 t3 : Byte)
    (payload : List Byte) (length : Nat) (h : payload.length < 3) :
    (idat_branch env ihdr (t0 :: t1 :: t2 :: t3 :: payload) length).2 = false := by
  match payload, h with
  | [], _ => simp [idat_branch]
  | [_], _ => simp [idat_branch]
  | [_, _], _ => simp [idat_branch]

theorem stored_block_short (env : Env) (ihdr : ihdr_t) (t0 t1 t2 t3 : Byte)
    (payload : List Byte) (length : Nat) (h : payload.length < 7) :
    (stored_block env ihdr (t0 :: t1 :: t2 :: t3 :: payload) length).2 = false := by
  match payload, h with
  | [], _ => simp [stored_block]
  | [_], _ => simp [stored_block]
  | [_, _], _ => simp [stored_block]
  | [_, _, _], _ => simp [stored_block]
  | [_, _, _, _], _ => simp [stored_block]
  | [_, _, _, _, _], _ => simp [stored_block]
  | [_, _, _, _, _, _], _ => simp [stored_block]

theorem idat_branch_in_bounds_iff (env : Env) (ihdr : ihdr_t) (t0 t1 t2 t3 : Byte)
    (payload : List Byte) :
    (idat_branch env ihdr (t0 :: t1 :: t2 :: t3 :: payload) payload.length).2 = true ↔
      idat_in_bounds payload := by
  constructor
  · intro hb
    by_cases h3 : 3 ≤ payload.length
    · refine ⟨h3, fun hbt => ?_⟩
      by_cases h7 : 7 ≤ payload.length
      · rw [idat_branch_stored env ihdr t0 t1 t2 t3 payload h7 hbt] at hb
        by_contra hlen
        rw [if_neg hlen] at hb
        simp at hb
      · exfalso
        obtain ⟨cmf, flg, blk, tl, rfl⟩ := list_length_ge_three payload h3
        have hbt' : (blk.val &&& 6) >>> 1 = 0 := hbt
        rw [idat_branch_head, if_pos hbt'] at hb
        have := stored_block_short env ihdr t0 t1 t2 t3 (cmf :: flg :: blk :: tl)
          (cmf :: flg :: blk :: tl).length (by omega)
        simp only at hb
        rw [this] at hb
        simp at hb
    · have := idat_branch_short env ihdr t0 t1 t2 t3 payload payload.length (by omega)
      rw [this] at hb
      simp at hb
  · exact idat_branch_in_bounds env ihdr t0 t1 t2 t3 payload

/-- C18: for an IDAT chunk with a payload of L bytes, all accesses of the IDAT
branch stay inside the buffer of 4+L bytes exactly when L >= 3 and BTYPE is not
0, or BTYPE is 0, L >= 7 and L >= 7 + LEN; in particular they do under the
claim's condition, and with L = 0 an access falls outside the buffer. -/
theorem idat_accesses_in_bounds (env : Env) (ihdr : ihdr_t) (payload : List Byte) :
    ((idat_branch env ihdr (str_IDAT ++ payload) payload.length).2 = true ↔
      (3 ≤ payload.length ∧ payload_btype payload ≠ 0) ∨
      (payload_btype payload = 0 ∧ 7 ≤ payload.length ∧
        7 + payload_len payload ≤ payload.length)) ∧
    (idat_branch env ihdr (str_IDAT ++ []) ([] : List Byte).length).2 = false := by
  have hbuf : ∀ p : List Byte, str_IDAT ++ p = 73 :: 68 :: 65 :: 84 :: p := fun _ => rfl
  refine ⟨?_, ?_⟩
  · rw [hbuf, idat_branch_in_bounds_iff]
    unfold idat_in_bounds
    constructor
    · rintro ⟨h3, hst⟩
      by_cases hbt : payload_btype payload = 0
      · exact Or.inr ⟨hbt, by have := hst hbt; omega, hst hbt⟩
      · exact Or.inl ⟨h3, hbt⟩
    · rintro (⟨h3, hbt⟩ | ⟨_, h7, hlen⟩)
      · exact ⟨h3, fun h0 => absurd h0 hbt⟩
      · exact ⟨by omega, fun _ => hlen⟩
  · rw [hbuf]
    exact idat_branch_short env ihdr 73 68 65 84 [] _ (by simp)

/-- C18 on the IDAT payload of the minimal valid PNG file. -/
theorem idat_accesses_in_bounds_witness :
    (idat_branch ref_env ref_env.stack_ihdr (str_IDAT ++ scenario_idat)
      scenario_idat.length).2 = true :=
  (idat_accesses_in_bounds ref_env ref_env.stack_ihdr scenario_idat).1.mpr
    (Or.inr (by decide))

/-! ## C19: expected lengths outside the range of LEN -/

theorem stored_length_mismatch_mem (env : Env) (ihdr : ihdr_t) (payload : List Byte)
    (h7 : 7 ≤ payload.length) (hbt : payload_btype payload = 0)
    (hne : (payload_len payload : Int) ≠ expected_len ihdr) :
    Event.stored_length_mismatch (payload_len payload) (expected_len ihdr) ∈
      (idat_branch env ihdr (str_IDAT ++ payload) payload.length).1 := by
  have hf := filter_stored_length env ihdr payload h7 hbt
  rw [if_pos hne] at hf
  have hmem : Event.stored_length_mismatch (payload_len payload) (expected_len ihdr) ∈
      (idat_branch env ihdr (str_IDAT ++ payload) payload.length).1.filter
        Event.is_stored_length_mismatch := by
    rw [hf]
    exact List.mem_singleton_self _
  exact (List.mem_filter.mp hmem).1

theorem payload_len_lt (payload : List Byte) : payload_len payload < 65536 := by
  unfold payload_len
  omega

/-- C19: when the expected length computed from the retained header is greater
than 65535 or negative, an IDAT payload with BTYPE = 0 that holds LEN gets the
stored-length mismatch line whatever its bytes are, and no IDAT payload with
BTYPE = 0, of any length, passes the branch with all accesses in bounds and
without an error line. -/
theorem stored_length_out_of_range (env : Env) (ihdr : ihdr_t) (payload : List Byte)
    (hexp : 65535 < expected_len ihdr ∨ expected_len ihdr < 0)
    (hbt : payload_btype payload = 0) :
    (7 ≤ payload.length →
      Event.stored_length_mismatch (payload_len payload) (expected_len ihdr) ∈
        (idat_branch env ihdr (str_IDAT ++ payload) payload.length).1) ∧
    ¬ ((idat_branch env ihdr (str_IDAT ++ payload) payload.length).2 = true ∧
      (idat_branch env ihdr (str_IDAT ++ payload) payload.length).1.filter
        Event.is_finding = []) := by
  have hlt := payload_len_lt payload
  have hne : (payload_len payload : Int) ≠ expected_len ihdr := by omega
  refine ⟨fun h7 => stored_length_mismatch_mem env ihdr payload h7 hbt hne, ?_⟩
  rintro ⟨hb, hclean⟩
  have hbuf : str_IDAT ++ payload = 73 :: 68 :: 65 :: 84 :: payload := rfl
  have hin : idat_in_bounds payload := by
    rw [hbuf] at hb
    exact (idat_branch_in_bounds_iff env ihdr 73 68 65 84 payload).mp hb
  have h7 : 7 ≤ payload.length := by
    have := hin.2 hbt
    omega
  have hmem := stored_length_mismatch_mem env ihdr payload h7 hbt hne
  have : Event.stored_length_mismatch (payload_len payload) (expected_len ihdr) ∈
      (idat_branch env ihdr (str_IDAT ++ payload) payload.length).1.filter
        Event.is_finding := List.mem_filter.mpr ⟨hmem, rfl⟩
  rw [hclean] at this
  simp at this

/-- C19 on a 300x300 RGB image (expected length 270300) and the IDAT payload of
the minimal valid PNG file. -/
theorem stored_length_out_of_range_witness :
    Event.stored_length_mismatch (payload_len scenario_idat)
        (expected_len ⟨300, 300, 8, 2, 0, 0, 0⟩) ∈
      (idat_branch ref_env ⟨300, 300, 8, 2, 0, 0, 0⟩ (str_IDAT ++ scenario_idat)
        scenario_idat.length).1 :=
  (stored_length_out_of_range ref_env ⟨300, 300, 8, 2, 0, 0, 0⟩ scenario_idat
    (Or.inl (by decide)) (by decide)).1 (by decide)

/-! ## C20: the product with the height wraps -/

/-- C20: for width 65535, height 65536, bit depth 8 and color type 0 the row
length with its filter byte is 65536, the rows hold 65536 * 65536 = 2^32 bytes,
and the expected length computed by the program is 0; an IDAT payload with a
stored block of LEN = 0 gets no stored-length mismatch line. -/
theorem expected_len_wraps (env : Env) (payload : List Byte) (h7 : 7 ≤ payload.length)
    (hbt : payload_btype payload = 0) (hlen : payload_len payload = 0) :
    expected_row_len ⟨65535, 65536, 8, 0, 0, 0, 0⟩ = 65536 ∧
    spec_expected_len ⟨65535, 65536, 8, 0, 0, 0, 0⟩ = 2 ^ 32 ∧
    expected_len ⟨65535, 65536, 8, 0, 0, 0, 0⟩ = 0 ∧
    (idat_branch env ⟨65535, 65536, 8, 0, 0, 0, 0⟩ (str_IDAT ++ payload)
      payload.length).1.filter Event.is_stored_length_mismatch = [] := by
  have he : expected_len ⟨65535, 65536, 8, 0, 0, 0, 0⟩ = 0 := by decide
  refine ⟨by decide, by decide, he, ?_⟩
  rw [filter_stored_length env _ payload h7 hbt, he, hlen]
  simp

set_option maxRecDepth 100000 in
/-- C20 on the payload 78 01, a final stored block with LEN = 0, and the
Adler-32 of no data: no error line at all. -/
theorem expected_len_wraps_witness :
    expected_len ⟨65535, 65536, 8, 0, 0, 0, 0⟩ = 0 ∧
    (idat_branch ref_env ⟨65535, 65536, 8, 0, 0, 0, 0⟩
      (str_IDAT ++ [0x78, 0x01, 1, 0, 0, 0xFF, 0xFF, 0, 0, 0, 1]) 11).1.filter
        Event.is_stored_length_mismatch = [] ∧
    (idat_branch ref_env ⟨65535, 65536, 8, 0, 0, 0, 0⟩
      (str_IDAT ++ [0x78, 0x01, 1, 0, 0, 0xFF, 0xFF, 0, 0, 0, 1]) 11).1.filter
        Event.is_finding = [] :=
  ⟨(expected_len_wraps ref_env [0x78, 0x01, 1, 0, 0, 0xFF, 0xFF, 0, 0, 0, 1] (by decide)
      (by decide) (by decide)).2.2.1,
   (expected_len_wraps ref_env [0x78, 0x01, 1, 0, 0, 0xFF, 0xFF, 0, 0, 0, 1] (by decide)
      (by decide) (by decide)).2.2.2, by decide⟩

end PngReader
